import Mathlib

/-!
Verification of the team-flow workflow orchestrator against its
natural-language specification.

Each namespace shallowly embeds one component of the source:

* `ErrorHandler`      — `src/utils/errorHandler.js` (`analyzeError` and its
                        pattern/code matchers)
* `RecoveryManager`   — `src/utils/recovery.js` (`retryWithBackoff`)
* `RateLimitManager`  — `src/utils/rateLimit.js` (`checkAndWaitForRateLimit`,
                        `waitForRateLimit`)
* `FinishCmd`         — `src/commands/finish.js` (`finishCommand`,
                        `checkWorkStatus`)
* `BranchPlan`        — `src/commands/start.js` (`generateBranchName`) and
                        `src/utils/validation.js` (`validateBranchName`)
* `BackupManager`     — `src/utils/backup.js` (index retention, full and
                        incremental backups, restore)
* `Logging`           — `src/utils/logger.js` (`_writeToFile`, `securityLog`,
                        `_maskSensitiveData`, `_maskSensitiveMessage`)
* `WorkStatus`        — `src/utils/workStatus.js` (`generateRecommendations`)
* `CommitHelper`      — `src/utils/commit.js` (`getDescription` validator)

JavaScript strings are embedded as `String`/`List Char`; regular-expression
tests are embedded as explicit scanners over `List Char` with the same
match semantics on the inputs considered.  Machine integers are `Nat`
(timestamps in milliseconds, sizes in bytes); none of the arithmetic in the
embedded code can overflow a JS number on the inputs considered.
-/

namespace ErrorHandler

/-- A JavaScript error value as consumed by `ErrorHandler.analyzeError`:
`message` is `error.message || error.toString()`, `code` is
`error.code || error.errno` (absent when both are undefined), `name` is
`error.name`. -/
structure JsError where
  message : String
  code : Option String := none
  name : Option String := none
deriving DecidableEq, Repr

/-- Remainder of the list after the first occurrence of `p`
(the suffix starting right after the matched occurrence), or `none`
when `p` does not occur.  Used to embed `.*` sequencing in the
source's regular-expression tests. -/
def subSuffix (p : List Char) : List Char → Option (List Char)
  | [] => if p = [] then some [] else none
  | c :: rest =>
    if List.isPrefixOf p (c :: rest) then some (List.drop p.length (c :: rest))
    else subSuffix p rest

/-- `containsInOrder l [p₁, …, pₙ] = true` iff `l` matches the regex
`p₁.*p₂.*…pₙ` (each part occurs, in order, without overlap). -/
def containsInOrder (l : List Char) : List (List Char) → Bool
  | [] => true
  | p :: ps =>
    match subSuffix p l with
    | some rest => containsInOrder rest ps
    | none => false

/-- Case-insensitive regex test `/(p₁).*(p₂)…/i.test(msg)` for literal
parts: the message is lowercased (the source patterns are ASCII
lowercase literals with the `i` flag). -/
def testPat (msg : String) (parts : List String) : Bool :=
  containsInOrder (msg.data.map Char.toLower) (parts.map String.data)

/-- `criticalCodes` of `isCriticalError`. -/
def criticalCodes : List String := ["EACCES", "ENOSPC", "ENOMEM", "EPERM"]

/-- `recoverableCodes` of `isRecoverableError`. -/
def recoverableCodes : List String :=
  ["ENOTFOUND", "ECONNREFUSED", "ETIMEDOUT", "EBUSY", "ENOENT"]

/-- `codes.includes(code)` where `code` may be undefined. -/
def codeIn (code : Option String) (codes : List String) : Bool :=
  match code with
  | some c => codes.contains c
  | none => false

/-- `ErrorHandler.isCriticalError`: the seven critical message patterns,
the four critical platform codes, or the `GitRepositoryError` name. -/
def isCriticalError (e : JsError) : Bool :=
  (testPat e.message ["repository", "corrupt"] ||
   testPat e.message ["permission denied"] ||
   testPat e.message ["enospc"] || testPat e.message ["no space left"] ||
   testPat e.message ["enomem"] || testPat e.message ["out of memory"] ||
   testPat e.message ["authentication", "failed"] ||
   testPat e.message ["invalid", "credentials"] ||
   testPat e.message ["eacces"]) ||
  codeIn e.code criticalCodes ||
  e.name = some "GitRepositoryError"

/-- `ErrorHandler.isRecoverableError`: the seven recoverable message
patterns, the five recoverable platform codes, or the
`GitMergeConflictError` name. -/
def isRecoverableError (e : JsError) : Bool :=
  (testPat e.message ["timeout"] ||
   testPat e.message ["network", "error"] ||
   testPat e.message ["connection", "refused"] ||
   testPat e.message ["merge", "conflict"] ||
   testPat e.message ["rate", "limit"] ||
   testPat e.message ["enoent"] ||
   testPat e.message ["file", "busy"]) ||
  codeIn e.code recoverableCodes ||
  e.name = some "GitMergeConflictError"

/-- `ErrorHandler.isWarningError`: the four warning message patterns
(the platform code is ignored by the source). -/
def isWarningError (e : JsError) : Bool :=
  testPat e.message ["optional", "feature"] ||
  testPat e.message ["configuration", "missing"] ||
  testPat e.message ["performance", "warning"] ||
  testPat e.message ["deprecated"]

/-- The four severities of `ErrorClassification`. -/
inductive Severity where
  | critical
  | recoverable
  | warning
  | unknown
deriving DecidableEq, Repr

/-- `ErrorHandler.getCriticalErrorType`. -/
def getCriticalErrorType (e : JsError) : String :=
  if testPat e.message ["repository", "corrupt"] then "GIT_REPOSITORY_CORRUPTION"
  else if testPat e.message ["permission denied"] || e.code = some "EACCES" then
    "PERMISSION_DENIED"
  else if testPat e.message ["enospc"] || testPat e.message ["no space left"] ||
      e.code = some "ENOSPC" then "DISK_SPACE_FULL"
  else if testPat e.message ["enomem"] || testPat e.message ["out of memory"] ||
      e.code = some "ENOMEM" then "OUT_OF_MEMORY"
  else if testPat e.message ["authentication", "failed"] then "AUTHENTICATION_FAILED"
  else "UNKNOWN_CRITICAL"

/-- `ErrorHandler.getRecoverableErrorType`. -/
def getRecoverableErrorType (e : JsError) : String :=
  if testPat e.message ["timeout"] || e.code = some "ETIMEDOUT" then "NETWORK_TIMEOUT"
  else if testPat e.message ["connection", "refused"] || e.code = some "ECONNREFUSED" then
    "CONNECTION_REFUSED"
  else if testPat e.message ["merge", "conflict"] then "MERGE_CONFLICT"
  else if testPat e.message ["rate", "limit"] then "API_RATE_LIMIT"
  else if e.code = some "ENOENT" then "FILE_NOT_FOUND"
  else "UNKNOWN_RECOVERABLE"

/-- `ErrorHandler.getWarningErrorType`. -/
def getWarningErrorType (e : JsError) : String :=
  if testPat e.message ["optional", "feature"] then "OPTIONAL_FEATURE_UNAVAILABLE"
  else if testPat e.message ["configuration", "missing"] then "CONFIGURATION_MISSING"
  else if testPat e.message ["performance", "warning"] then "PERFORMANCE_WARNING"
  else if testPat e.message ["deprecated"] then "DEPRECATED_FEATURE"
  else "UNKNOWN_WARNING"

/-- Result of `analyzeError`. -/
structure ErrorInfo where
  severity : Severity
  type : String
  recoverable : Bool
deriving DecidableEq, Repr

/-- `ErrorHandler.analyzeError`: classify an error, testing the critical,
recoverable and warning matchers in that order. -/
def analyzeError (e : JsError) : ErrorInfo :=
  if isCriticalError e then
    { severity := .critical, type := getCriticalErrorType e, recoverable := false }
  else if isRecoverableError e then
    { severity := .recoverable, type := getRecoverableErrorType e, recoverable := true }
  else if isWarningError e then
    { severity := .warning, type := getWarningErrorType e, recoverable := true }
  else
    { severity := .unknown, type := "UNKNOWN_ERROR", recoverable := false }

end ErrorHandler

namespace RecoveryManager

/-- `this.retryDelay` (1 second, in milliseconds). -/
def retryDelay : Nat := 1000

/-- `this.maxRetries` default. -/
def maxRetriesDefault : Nat := 3

/-- Outcome of one `retryWithBackoff` run: the sleeps performed (in
order, milliseconds) and the final `success` flag of the returned
result.  The operation is modelled by `op : Nat → Bool`, giving the
success of the `k`-th attempt. -/
structure RetryRun where
  sleeps : List Nat
  success : Bool
deriving DecidableEq, Repr

/-- Body of the `for (attempt = 1; attempt <= maxRetries; …)` loop of
`retryWithBackoff`, from attempt number `attempt` with
`remaining` loop iterations left.  Each iteration first sleeps
`retryDelay * 2^(attempt-1)` and then runs the operation; a throwing
attempt either continues or, at `attempt === maxRetries`, produces the
failure result. -/
def retryAux (base : Nat) (op : Nat → Bool) : Nat → Nat → RetryRun
  | _, 0 => { sleeps := [], success := false }
  | attempt, remaining + 1 =>
    let delay := base * 2 ^ (attempt - 1)
    if op attempt then
      { sleeps := [delay], success := true }
    else if remaining = 0 then
      { sleeps := [delay], success := false }
    else
      let rest := retryAux base op (attempt + 1) remaining
      { sleeps := delay :: rest.sleeps, success := rest.success }

/-- `RecoveryManager.retryWithBackoff` with an operation function in the
context: `none` models the `undefined` fall-through when
`maxRetries = 0` (the loop body never runs). -/
def retryWithBackoff (base : Nat) (maxRetries : Nat) (op : Nat → Bool) :
    Option RetryRun :=
  if maxRetries = 0 then none else some (retryAux base op 1 maxRetries)

end RecoveryManager

namespace RateLimitManager

/-- `this.rateLimit`, parsed from the `x-ratelimit-*` response headers:
`reset` is a Unix epoch in seconds. -/
structure RateLimitState where
  limit : Nat
  remaining : Nat
  reset : Nat
  used : Nat
deriving DecidableEq, Repr

/-- Sleeps (in ms) performed by `checkAndWaitForRateLimit` at time `now`
(Unix epoch in milliseconds): with no state, none; with
`remaining <= 0`, sleep until `reset * 1000` when that is in the
future; with `0 < remaining < 5`, a fixed 1-second sleep. -/
def checkAndWaitForRateLimit (rl : Option RateLimitState) (now : Nat) : List Nat :=
  match rl with
  | none => []
  | some st =>
    if st.remaining ≤ 0 then
      let waitTime : Int := (st.reset * 1000 : Int) - (now : Int)
      if waitTime > 0 then [waitTime.toNat] else []
    else if st.remaining < 5 then [1000]
    else []

/-- Sleep (in ms) performed by `waitForRateLimit` for a 403 rate-limit
error at time `now`: with an `x-ratelimit-reset` header (epoch
seconds), `max(reset*1000 - now, 0) + 1000`; otherwise the 60-second
default. -/
def waitForRateLimit : Option Nat → Nat → Nat
  | some reset, now => ((reset * 1000 : Int) - (now : Int)).toNat + 1000
  | none, _ => 60000

end RateLimitManager

namespace Js

/-- ECMAScript `\s` (whitespace and line terminators): the characters
recognised by the `\s` class and by `String.prototype.trim`. -/
def isJsSpace (c : Char) : Bool :=
  c = ' ' || c = '\t' || c = '\n' || c = '\r' ||
  c.toNat = 0x0b || c.toNat = 0x0c ||
  c.toNat = 0xa0 || c.toNat = 0x1680 ||
  (0x2000 ≤ c.toNat && c.toNat ≤ 0x200a) ||
  c.toNat = 0x2028 || c.toNat = 0x2029 || c.toNat = 0x202f ||
  c.toNat = 0x205f || c.toNat = 0x3000 || c.toNat = 0xfeff

/-- ECMAScript `String.prototype.trim`: strip `\s` characters from both
ends. -/
def jsTrim (l : List Char) : List Char :=
  ((l.dropWhile isJsSpace).reverse.dropWhile isJsSpace).reverse

/-- `needle` occurs as a contiguous substring of `hay`. -/
def containsSub (hay needle : List Char) : Bool :=
  match hay with
  | [] => needle.isEmpty
  | _ :: rest => List.isPrefixOf needle hay || containsSub rest needle

/-- Decimal digit character. -/
def digitChar (d : Nat) : Char := Char.ofNat (48 + d)

/-- Fuel-driven decimal rendering; `fuel` bounds the number of
divisions by 10 (any `fuel ≥ n` suffices). -/
def natToStrAux : Nat → Nat → List Char
  | 0, _ => []
  | fuel + 1, n =>
    if n < 10 then [digitChar n]
    else natToStrAux fuel (n / 10) ++ [digitChar (n % 10)]

/-- Decimal rendering of a non-negative integer, as produced by a JS
template literal `${n}`. -/
def natToStr (n : Nat) : List Char := natToStrAux (n + 1) n

/-- ECMAScript `\w`: ASCII letters, digits and underscore. -/
def isWordChar (c : Char) : Bool :=
  ('a' ≤ c && c ≤ 'z') || ('A' ≤ c && c ≤ 'Z') || ('0' ≤ c && c ≤ '9') || c = '_'

/-- ECMAScript `toLowerCase` restricted to the simple ASCII mapping
(`A`–`Z` to `a`–`z`, all other characters unchanged — exact for
digits, punctuation and CJK/kana, which have no case mapping). -/
def jsToLower (c : Char) : Char :=
  if 'A' ≤ c && c ≤ 'Z' then Char.ofNat (c.toNat + 32) else c

end Js

namespace FinishCmd

/-- The interactive environment `finishCommand` runs in: repository
state, prompt answers, and outcomes of the external calls.  One field
per prompt/external call, in source order. -/
structure Env where
  currentBranch : String
  isClean : Bool
  /-- answer to `PR作成のみ実行しますか？` when the tree is clean -/
  prOnlyConfirm : Bool
  /-- `git.getChangedFiles()` paths -/
  changedFiles : List String
  /-- checkbox selection among the changed files -/
  selectedFiles : List String
  commitType : String
  commitDescription : String
  commitBody : String
  /-- answer to `この内容でコミットしますか？` -/
  commitConfirm : Bool
  hasTests : Bool
  runTestsConfirm : Bool
  testsPass : Bool
  /-- answer to `テストが失敗しましたが、続行しますか？` -/
  testsFailContinue : Bool
  pushSucceeds : Bool
  githubConfigured : Bool
  createPRConfirm : Bool
  prTitle : String
  prBase : String
  notifyConfigured : Bool
deriving Repr

/-- Externally visible mutations performed by the Finish phase. -/
inductive Effect where
  | stage (files : List String)
  | commit (message : String)
  | push (branch : String)
  | createPR (title : String) (head : String) (base : String)
  | notify
deriving DecidableEq, Repr

/-- The distinct abort causes of the Finish phase (each is a distinct
`throw` site in the source; `onDefaultBranch` is the
`main/masterブランチで直接作業することは推奨されません` throw of
`checkWorkStatus`). -/
inductive Abort where
  | onDefaultBranch
  | noChanges
  | commitCancelled
  | testsFailed
  | pushFailed
deriving DecidableEq, Repr

/-- Result of `finishCommand` (the top-level `catch` turns a throw into
a reported failure). -/
inductive FinishResult where
  | completed
  | failed (reason : Abort)
deriving DecidableEq, Repr

/-- `checkWorkStatus`: refuse `main`/`master`; on a clean tree ask for a
PR-only run and abort if declined. -/
def checkWorkStatus (env : Env) : Except Abort Unit :=
  if env.currentBranch = "main" || env.currentBranch = "master" then
    .error .onDefaultBranch
  else if env.isClean then
    if env.prOnlyConfirm then .ok () else .error .noChanges
  else .ok ()

/-- `reviewChangedFiles`: empty when nothing changed, else the user's
checkbox selection. -/
def reviewChangedFiles (env : Env) : List String :=
  if env.changedFiles.isEmpty then [] else env.selectedFiles

/-- `createCommitMessage`: `<type>: <description>` with an optional body
paragraph. -/
def createCommitMessage (env : Env) : String :=
  let msg := env.commitType ++ ": " ++ env.commitDescription
  if env.commitBody = "" then msg else msg ++ "\n\n" ++ env.commitBody

/-- Steps 4–8 of `finishCommand` (tests, push, PR, notification), with
the effects accumulated so far. -/
def afterCommit (env : Env) (eff : List Effect) : List Effect × FinishResult :=
  if env.hasTests && env.runTestsConfirm && !env.testsPass && !env.testsFailContinue then
    (eff, .failed .testsFailed)
  else if !env.pushSucceeds then
    (eff, .failed .pushFailed)
  else
    let eff := eff ++ [Effect.push env.currentBranch]
    let eff :=
      if env.githubConfigured && env.createPRConfirm then
        eff ++ [Effect.createPR env.prTitle env.currentBranch env.prBase]
      else eff
    let eff := if env.notifyConfigured then eff ++ [Effect.notify] else eff
    (eff, .completed)

/-- `finishCommand`: the Finish phase, returning the effects performed
(in order) and the structured result. -/
def finishCommand (env : Env) : List Effect × FinishResult :=
  match checkWorkStatus env with
  | .error r => ([], .failed r)
  | .ok _ =>
    let files := reviewChangedFiles env
    if files.isEmpty then
      afterCommit env []
    else
      let effStage := [Effect.stage files]
      if !env.commitConfirm then (effStage, .failed .commitCancelled)
      else afterCommit env (effStage ++ [Effect.commit (createCommitMessage env)])

end FinishCmd

namespace BranchPlan

/-- The work types offered by `selectWorkType` in `start.js`; the value
doubles as the branch-name prefix. -/
inductive WorkType where
  | feature
  | bugfix
  | docs
  | refactor
  | hotfix
deriving DecidableEq, Repr

/-- The prompt `value` of each work type. -/
def WorkType.str : WorkType → String
  | .feature => "feature"
  | .bugfix => "bugfix"
  | .docs => "docs"
  | .refactor => "refactor"
  | .hotfix => "hotfix"

/-- Characters kept by the slug filter: the complement of the class
removed by `replace(/[^a-z0-9\s-]/g, '')`. -/
def slugKeep (c : Char) : Bool :=
  ('a' ≤ c && c ≤ 'z') || ('0' ≤ c && c ≤ '9') || Js.isJsSpace c || c = '-'

/-- `replace(/\s+/g, '-')`: each maximal run of whitespace becomes one
dash.  The flag records whether the previous character was part of a
whitespace run. -/
def collapseWsAux : Bool → List Char → List Char
  | _, [] => []
  | inRun, c :: rest =>
    if Js.isJsSpace c then
      if inRun then collapseWsAux true rest
      else '-' :: collapseWsAux true rest
    else c :: collapseWsAux false rest

/-- The slug derivation of `generateBranchName`: lowercase, strip
characters outside `[a-z0-9\s-]`, collapse whitespace runs to dashes,
truncate to 30 characters. -/
def titleSlug (title : String) : List Char :=
  List.take 30 (collapseWsAux false ((title.data.map Js.jsToLower).filter slugKeep))

/-- Issue info as passed to `generateBranchName` (`number` is absent for
issue-less work). -/
structure IssueInfo where
  number : Option Nat
  title : String
deriving Repr

/-- `generateBranchName`:
`` `${workType}/${issuePrefix}${titleSlug}` `` with
`` issuePrefix = `issue-${number}-` `` exactly when a number is
present. -/
def generateBranchName (workType : WorkType) (issueInfo : IssueInfo) : List Char :=
  let issuePart : List Char :=
    match issueInfo.number with
    | some n => "issue-".data ++ Js.natToStr n ++ ['-']
    | none => []
  workType.str.data ++ ['/'] ++ issuePart ++ titleSlug issueInfo.title

/-- Characters a finished slug may contain (specification-side
predicate): lower-case ASCII letters, ASCII digits and dash. -/
def slugChar (c : Char) : Bool :=
  ('a' ≤ c && c ≤ 'z') || ('0' ≤ c && c ≤ '9') || c = '-'

/-- Characters a generated branch name may contain: slug characters
plus the single separating slash. -/
def nameChar (c : Char) : Bool := slugChar c || c = '/'

end BranchPlan

namespace Validation

/-- Result shape `{valid, value?, error?}` of the validators (the
Japanese error strings are externalized; only validity and the
returned value matter here). -/
structure VResult where
  valid : Bool
  value : Option (List Char) := none
deriving DecidableEq, Repr

/-- The special characters rejected by `validateBranchName`
(`/[~^:?*[\]\\]/`). -/
def branchSpecials : List Char := ['~', '^', ':', '?', '*', '[', ']', '\\']

/-- One of the ten `invalidPatterns` of `validateBranchName` matches the
(already trimmed) name. -/
def hasInvalidPattern (t : List Char) : Bool :=
  t.any Js.isJsSpace ||
  Js.containsSub t ['.', '.'] ||
  t.any (fun c => branchSpecials.contains c) ||
  t.head? = some '-' ||
  t.getLast? = some '-' ||
  t.map Char.toUpper = "HEAD".data ||
  t.head? = some '.' ||
  t.getLast? = some '.' ||
  t.getLast? = some '/' ||
  t.head? = some '/' ||
  Js.containsSub t ['/', '/']

/-- `Validation.validateBranchName`: trim, bound the length to
`[1, 100]`, and reject the ten invalid Git-name patterns. -/
def validateBranchName (branchName : List Char) : VResult :=
  if branchName.isEmpty then { valid := false }
  else
    let t := Js.jsTrim branchName
    if t.length = 0 then { valid := false }
    else if t.length > 100 then { valid := false }
    else if hasInvalidPattern t then { valid := false }
    else { valid := true, value := some t }

end Validation

namespace WorkStatus

/-- Recommendation priority. -/
inductive Priority where
  | high
  | medium
  | low
deriving DecidableEq, Repr

/-- The `action` tags driving the Continue dispatcher. -/
inductive RecAction where
  | commit
  | pull
  | push
  | sync
  | update_status
  | test
  | update_issue
deriving DecidableEq, Repr

/-- One recommendation (display-only fields `icon`, `title`,
`description` omitted). -/
structure Recommendation where
  rtype : String
  priority : Priority
  action : RecAction
deriving DecidableEq, Repr

/-- Remote sync classification produced by `checkRemoteSyncStatus`. -/
inductive SyncTag where
  | up_to_date
  | ahead
  | behind
  | diverged
  | no_remote
  | unknown
deriving DecidableEq, Repr

/-- The fields of `this.status` consulted by
`generateRecommendations`. -/
structure StatusSnapshot where
  isClean : Bool
  syncStatus : SyncTag
  commitsSinceLastPush : Nat
  isStale : Bool
  isLongRunning : Bool
  hasIssue : Bool
deriving DecidableEq, Repr

/-- The recommendations pushed by `generateRecommendations`, in source
(push) order, before sorting. -/
def buildRecommendations (s : StatusSnapshot) : List Recommendation :=
  (if !s.isClean then [⟨"commit", .high, .commit⟩] else []) ++
  (if s.syncStatus = .behind then [⟨"pull", .high, .pull⟩] else []) ++
  (if s.commitsSinceLastPush > 0 then [⟨"push", .medium, .push⟩] else []) ++
  (if s.syncStatus = .diverged then [⟨"sync", .high, .sync⟩] else []) ++
  (if s.isStale then [⟨"status_update", .low, .update_status⟩] else []) ++
  (if s.isLongRunning then [⟨"test", .medium, .test⟩] else []) ++
  (if s.hasIssue && s.commitsSinceLastPush > 0 then
    [⟨"issue_update", .low, .update_issue⟩] else [])

/-- The stable sort
`recommendations.sort((a,b) => priorityOrder[b.priority] - priorityOrder[a.priority])`
(`Array.prototype.sort` is stable per ECMAScript): on a three-valued
key it concatenates the priority classes in decreasing key order,
preserving the relative order inside each class. -/
def sortByPriority (l : List Recommendation) : List Recommendation :=
  l.filter (·.priority = Priority.high) ++
  l.filter (·.priority = Priority.medium) ++
  l.filter (·.priority = Priority.low)

/-- `WorkStatus.generateRecommendations`: build and priority-sort the
recommendation list. -/
def generateRecommendations (s : StatusSnapshot) : List Recommendation :=
  sortByPriority (buildRecommendations s)

/-- Numeric priority used by the comparator. -/
def priorityOrder : Priority → Nat
  | .high => 3
  | .medium => 2
  | .low => 1

end WorkStatus

namespace CommitHelper

/-- ECMAScript single-character `toUpperCase`, restricted to the simple
ASCII and Latin-1 mappings (`a`–`z` and `à`–`þ` map up; `ß` expands
to `"SS"`; characters with no uppercase mapping — digits, punctuation,
kana and CJK — map to themselves). -/
def jsCharToUpper (c : Char) : List Char :=
  if 'a' ≤ c && c ≤ 'z' then [Char.ofNat (c.toNat - 32)]
  else if c.toNat = 0xdf then ['S', 'S']
  else if (0xe0 ≤ c.toNat && c.toNat ≤ 0xfe) && c.toNat ≠ 0xf7 then
    [Char.ofNat (c.toNat - 32)]
  else [c]

/-- The `validate` callback of `CommitHelper.getDescription`: reject an
input that is empty after trimming, longer than 72 characters,
starting with a character equal to its own upper-cased form
(`input.charAt(0) === input.charAt(0).toUpperCase()`), or ending with
a period; accept otherwise. -/
def descriptionAccepts (input : List Char) : Bool :=
  if (Js.jsTrim input).isEmpty then false
  else if input.length > 72 then false
  else
    match input with
    | [] => false
    | c :: _ =>
      if jsCharToUpper c = [c] then false
      else if input.getLast? = some '.' then false
      else true

end CommitHelper

namespace Logging

/-- A structured-data object for logging: association list of string
keys and string values. -/
abbrev DataObj := List (String × String)

/-- `sensitiveKeys` of `_maskSensitiveData`. -/
def sensitiveKeys : List String :=
  ["token", "password", "secret", "key", "auth", "credential"]

/-- `key.toLowerCase().includes(sensitive)` for some sensitive key. -/
def isSensitiveKey (key : String) : Bool :=
  sensitiveKeys.any (fun s => Js.containsSub (key.data.map Js.jsToLower) s.data)

/-- `Logger._maskSensitiveData`: replace the value of every key whose
lowercased name contains a sensitive word by `***masked***`. -/
def maskSensitiveData (data : DataObj) : DataObj :=
  data.map (fun kv => if isSensitiveKey kv.1 then (kv.1, "***masked***") else kv)

/-- The separator class `[:\s=]` of the `token`/`password`
substitutions. -/
def classSep (c : Char) : Bool := c = ':' || Js.isJsSpace c || c = '='

/-- `\w` plus dash, the value class `[\w-]` of the `token`
substitution. -/
def isWordDash (c : Char) : Bool := Js.isWordChar c || c = '-'

/-- Case-insensitive literal prefix match: drop the (lowercase) pattern
`p` from the front of `l`, comparing case-insensitively; `none` if
`l` does not start with `p`. -/
def dropCi : List Char → List Char → Option (List Char)
  | [], l => some l
  | _ :: _, [] => none
  | p :: ps, c :: cs => if Js.jsToLower c = p then dropCi ps cs else none

/-- Match of `/token[:\s=]+[\w-]+/i` at the head of the list, returning
the remainder after the (greedy) match.  The separator and value
classes are disjoint, so greedy matching needs no backtracking. -/
def matchToken (l : List Char) : Option (List Char) :=
  match dropCi "token".data l with
  | none => none
  | some w =>
    let sep := w.takeWhile classSep
    let rest := w.dropWhile classSep
    if sep.isEmpty then none
    else
      let val := rest.takeWhile isWordDash
      if val.isEmpty then none else some (rest.dropWhile isWordDash)

/-- Backtracking step of the `password` match when the separator run
reaches the end of the string: the regex engine shortens `[:\s=]+`
so that `\S+` starts at the rightmost non-space separator character
(`:` or `=`); the remainder after the `\S+` run is returned. -/
def passBack : List Char → Option (List Char)
  | [] => none
  | c :: rest =>
    match passBack rest with
    | some r => some r
    | none =>
      if !Js.isJsSpace c then
        some (List.dropWhile (fun x => !Js.isJsSpace x) (c :: rest))
      else none

/-- Match of `/password[:\s=]+\S+/i` at the head of the list, returning
the remainder after the greedy match (with the end-of-string
backtracking case handled by `passBack`). -/
def matchPassword (l : List Char) : Option (List Char) :=
  match dropCi "password".data l with
  | none => none
  | some w =>
    let sep := w.takeWhile classSep
    let rest := w.dropWhile classSep
    if sep.isEmpty then none
    else if !rest.isEmpty then
      some (rest.dropWhile (fun c => !Js.isJsSpace c))
    else
      match sep with
      | [] => none
      | _ :: tail => passBack tail

/-- Match of `/ghp_[\w]+/` at the head of the list, returning the
remainder after the greedy match. -/
def matchGhp (l : List Char) : Option (List Char) :=
  match l with
  | c1 :: c2 :: c3 :: c4 :: c :: rest =>
    if c1 = 'g' && c2 = 'h' && c3 = 'p' && c4 = '_' && Js.isWordChar c then
      some ((c :: rest).dropWhile Js.isWordChar)
    else none
  | _ => none

/-- One step-bounded pass of a global regex replace
(`String.prototype.replace` with the `g` flag): scan left to right,
trying the matcher at every position; on a match, emit the replacement
and resume after the matched part.  `fuel` bounds the number of scan
steps; any `fuel ≥ l.length` is exact for matchers that consume at
least one character. -/
def scanRepAux (repl : List Char) (m : List Char → Option (List Char)) :
    Nat → List Char → List Char
  | _, [] => []
  | 0, l => l
  | fuel + 1, c :: rest =>
    match m (c :: rest) with
    | some r => repl ++ scanRepAux repl m fuel r
    | none => c :: scanRepAux repl m fuel rest

/-- Global regex replace, with enough fuel for the whole input. -/
def scanRep (repl : List Char) (m : List Char → Option (List Char))
    (l : List Char) : List Char :=
  scanRepAux repl m l.length l

/-- Dropping a case-insensitive literal shortens the list by exactly the
pattern length. -/
theorem dropCi_some_length :
    ∀ (p l r : List Char), dropCi p l = some r → r.length + p.length = l.length := by
  intro p
  induction p with
  | nil =>
    intro l r h
    simp [dropCi] at h
    simp [h]
  | cons a ps ih =>
    intro l r h
    cases l with
    | nil => simp [dropCi] at h
    | cons c cs =>
      simp only [dropCi] at h
      split at h
      · have := ih cs r h
        simp [List.length_cons]
        omega
      · exact absurd h (by simp)

/-- A `token` match consumes at least one character. -/
theorem matchToken_consumes :
    ∀ l r, matchToken l = some r → r.length < l.length := by
  intro l r h
  unfold matchToken at h
  cases hd : dropCi "token".data l with
  | none => rw [hd] at h; exact absurd h (by simp)
  | some w =>
    rw [hd] at h
    have hw := dropCi_some_length _ _ _ hd
    simp only at h
    split at h
    · exact absurd h (by simp)
    · split at h
      · exact absurd h (by simp)
      · have hr : r = (w.dropWhile classSep).dropWhile isWordDash := by
          injection h with h2; exact h2.symm
        subst hr
        have h1 : ((w.dropWhile classSep).dropWhile isWordDash).length ≤
            (w.dropWhile classSep).length := (List.dropWhile_sublist _).length_le
        have h2 : (w.dropWhile classSep).length ≤ w.length :=
          (List.dropWhile_sublist _).length_le
        have : ("token".data).length = 5 := by decide
        omega

/-- `passBack` never lengthens the remainder. -/
theorem passBack_length :
    ∀ (t r : List Char), passBack t = some r → r.length ≤ t.length := by
  intro t
  induction t with
  | nil => intro r h; simp [passBack] at h
  | cons c rest ih =>
    intro r h
    simp only [passBack] at h
    cases hb : passBack rest with
    | some r2 =>
      rw [hb] at h
      injection h with h2
      subst h2
      have := ih r2 hb
      simp only [List.length_cons]
      omega
    | none =>
      rw [hb] at h
      by_cases hc : Js.isJsSpace c
      · rw [if_neg (by simp [hc])] at h
        exact absurd h (by simp)
      · rw [if_pos (by simp [hc])] at h
        injection h with h2
        subst h2
        exact (List.dropWhile_sublist _).length_le

/-- A `password` match consumes at least one character. -/
theorem matchPassword_consumes :
    ∀ l r, matchPassword l = some r → r.length < l.length := by
  intro l r h
  unfold matchPassword at h
  cases hd : dropCi "password".data l with
  | none => rw [hd] at h; exact absurd h (by simp)
  | some w =>
    rw [hd] at h
    have hw := dropCi_some_length _ _ _ hd
    have hlen : ("password".data).length = 8 := by decide
    simp only at h
    split at h
    · exact absurd h (by simp)
    · split at h
      · have hr : r = (w.dropWhile classSep).dropWhile (fun c => !Js.isJsSpace c) := by
          injection h with h2; exact h2.symm
        subst hr
        have h1 : ((w.dropWhile classSep).dropWhile (fun c => !Js.isJsSpace c)).length ≤
            (w.dropWhile classSep).length := (List.dropWhile_sublist _).length_le
        have h2 : (w.dropWhile classSep).length ≤ w.length :=
          (List.dropWhile_sublist _).length_le
        omega
      · cases hsep : w.takeWhile classSep with
        | nil => rw [hsep] at h; exact absurd h (by simp)
        | cons s tail =>
          rw [hsep] at h
          have hp := passBack_length tail r h
          have h3 : (w.takeWhile classSep).length ≤ w.length :=
            (List.takeWhile_sublist _).length_le
          rw [hsep] at h3
          simp only [List.length_cons] at h3
          omega

/-- A `ghp_` match consumes at least one character. -/
theorem matchGhp_consumes :
    ∀ l r, matchGhp l = some r → r.length < l.length := by
  intro l r h
  unfold matchGhp at h
  split at h
  · rename_i c1 c2 c3 c4 c rest
    split at h
    · injection h with h2
      subst h2
      have : ((c :: rest).dropWhile Js.isWordChar).length ≤ (c :: rest).length :=
        (List.dropWhile_sublist _).length_le
      simp only [List.length_cons] at this ⊢
      omega
    · exact absurd h (by simp)
  · exact absurd h (by simp)

/-- `.replace(/token[:\s=]+[\w-]+/gi, 'token: ***masked***')`. -/
def replaceTokenPat (msg : List Char) : List Char :=
  scanRep "token: ***masked***".data matchToken msg

/-- `.replace(/password[:\s=]+\S+/gi, 'password: ***masked***')`. -/
def replacePasswordPat (msg : List Char) : List Char :=
  scanRep "password: ***masked***".data matchPassword msg

/-- `.replace(/ghp_[\w]+/g, 'ghp_***masked***')`. -/
def replaceGhpPat (msg : List Char) : List Char :=
  scanRep "ghp_***masked***".data matchGhp msg

/-- `Logger._maskSensitiveMessage`: the three substitutions, applied in
source order. -/
def maskSensitiveMessage (msg : List Char) : List Char :=
  replaceGhpPat (replacePasswordPat (replaceTokenPat msg))

/-- `Logger._writeToFile`: the log line
`` `[${time}] [${level.toUpperCase()}] ${message}` `` (the plain
logging methods `info`/`warn`/`error`/`debug` pass the message through
unmodified). -/
def writeToFileLine (time level msg : List Char) : List Char :=
  '[' :: time ++ "] [".data ++ level.map Char.toUpper ++ "] ".data ++ msg

/-- `Logger.securityLog`: the message is masked before it reaches the
level method and the log file. -/
def securityLogLine (time level msg : List Char) : List Char :=
  writeToFileLine time level (maskSensitiveMessage msg)

/-- A `ghp_` token (the pattern `ghp_` followed by a word character)
starts at the head of the list. -/
def startsGhpTok (l : List Char) : Bool :=
  l.head? = some 'g' && (l.drop 1).head? = some 'h' &&
  (l.drop 2).head? = some 'p' && (l.drop 3).head? = some '_' &&
  ((l.drop 4).head?.map Js.isWordChar).getD false

/-- A `ghp_` token occurs somewhere in the list. -/
def hasGhpTok : List Char → Bool
  | [] => false
  | c :: rest => startsGhpTok (c :: rest) || hasGhpTok rest

end Logging

namespace BackupManager

/-- `this.maxBackups`. -/
def maxBackups : Nat := 10

/-- SHA-256 modelled as a perfect (injective) fingerprint of the
content; the identity embedding keeps it executable.  All statements
below assume collision-freedom only through this injectivity. -/
def sha256 (content : String) : String := content

/-- One entry of a `BackupRecord`'s `files` array. -/
structure FileRec where
  path : String
  ftype : String
  size : Nat
  mtime : Nat
  checksum : Option String
deriving DecidableEq, Repr

/-- The canonical whole-snapshot digest: the source hashes
`"<relpath>:<content>"` over all files under `files/` in sorted
path order; it is modelled by the sorted `(relpath, content)` list
itself (an injective canonicalization of the same data), and is
`none` when the `files/` directory does not exist
(`calculateBackupChecksum` returns `null` then). -/
abbrev Digest := List (String × String)

/-- Insertion into a path-sorted pair list. -/
def insertPair (p : String × String) : List (String × String) → List (String × String)
  | [] => [p]
  | q :: rest =>
    if (compare p.1 q.1).isLE then p :: q :: rest else q :: insertPair p rest

/-- `files.sort()` of `calculateDirectoryChecksum`. -/
def sortPairs (l : List (String × String)) : List (String × String) :=
  l.foldr insertPair []

/-- A backup record as kept in `index.json`. -/
structure BackupRecord where
  id : String
  btype : String
  operation : String
  timestamp : Nat
  basedOn : Option String := none
  files : List FileRec
  size : Nat
  checksum : Option Digest
deriving DecidableEq, Repr

/-- A regular file in the working directory. -/
structure TargetFile where
  content : String
  mtime : Nat
deriving DecidableEq, Repr

/-- The working-directory state relevant to the Backup Store: the four
regular-file targets, plus the modification time of the always-present
`.team-flow` directory (the backup directory itself lives inside
it, so `ensureDir` guarantees its existence before any target is
visited). -/
structure WorkFS where
  env : Option TargetFile
  packageJson : Option TargetFile
  packageLock : Option TargetFile
  gitignore : Option TargetFile
  teamFlowMtime : Nat
deriving DecidableEq, Repr

/-- Look up a regular-file target by its path. -/
def getTarget (fs : WorkFS) (t : String) : Option TargetFile :=
  if t = ".env" then fs.env
  else if t = "package.json" then fs.packageJson
  else if t = "package-lock.json" then fs.packageLock
  else if t = ".gitignore" then fs.gitignore
  else none

/-- On-disk state of one backup directory `<id>/`: `filesTree` is the
`(relpath, content)` map under `<id>/files`, `none` while that
directory has never been created (no copy was ever attempted). -/
structure StoredBackup where
  id : String
  filesTree : Option (List (String × String))
deriving DecidableEq, Repr

/-- The Backup Store state: the `index.json` record list (most recent
first) and the on-disk backup directories. -/
structure StoreState where
  index : List BackupRecord
  disk : List StoredBackup
deriving DecidableEq, Repr

/-- The empty store (fresh `loadBackupIndex`). -/
def emptyStore : StoreState := { index := [], disk := [] }

/-- `backupTarget target backupPath`: copy one target into
`<backupPath>/files/<target>` and report its `FileRec`.  An absent
target returns `null` before anything is touched.  For a present
target, `fs.ensureDir(path.dirname(targetPath))` runs FIRST, creating
the `<backupPath>/files` directory, and only then the copy.
`fs-extra` refuses to copy a directory into a subdirectory of itself,
and `<backupPath>` lies inside `.team-flow/backups`, so the
`.team-flow` target (always present: it contains the backup store)
always throws at the copy and is caught — `null` is returned, but the
`files/` directory created by `ensureDir` remains; a regular file is
copied with size, mtime and SHA-256 recorded. -/
def backupTarget (t : String) (fs : WorkFS)
    (tree : Option (List (String × String))) :
    Option FileRec × Option (List (String × String)) :=
  if t = ".team-flow" then (none, some (tree.getD []))
  else
    match getTarget fs t with
    | none => (none, tree)
    | some f =>
      (some { path := t, ftype := "file", size := f.content.length,
              mtime := f.mtime, checksum := some (sha256 f.content) },
       some (tree.getD [] ++ [(t, f.content)]))

/-- Accumulating loop over backup targets: collect the successful
`FileRec`s and build the `files/` tree. -/
def backupTargetsAux (fs : WorkFS) :
    List String → List FileRec × Option (List (String × String)) →
    List FileRec × Option (List (String × String))
  | [], acc => acc
  | t :: rest, (recs, tree) =>
    let (rec0, tree1) := backupTarget t fs tree
    backupTargetsAux fs rest (recs ++ rec0.toList, tree1)

/-- The loop over targets in `createFullBackup`/`createIncrementalBackup`. -/
def backupTargets (ts : List String) (fs : WorkFS) :
    List FileRec × Option (List (String × String)) :=
  backupTargetsAux fs ts ([], none)

/-- The five targets of `createFullBackup`. -/
def fullTargets : List String :=
  [".env", "package.json", "package-lock.json", ".gitignore", ".team-flow"]

/-- The three targets checked by `findChangedFiles`. -/
def incTargets : List String := [".env", "package.json", ".team-flow"]

/-- `calculateBackupChecksum`: `null` without a `files/` directory, else
the canonical digest of its contents. -/
def calcBackupChecksum (tree : Option (List (String × String))) : Option Digest :=
  tree.map sortPairs

/-- `aggregate size`: `backupResult.size` accumulated over the recorded
files. -/
def totalSize (recs : List FileRec) : Nat :=
  recs.foldl (fun acc r => acc + r.size) 0

/-- The `git-info.json` entry produced by `backupGitInfo` (written at
the backup root, outside `files/`); `gitInfo` is the serialized
snapshot, `none` when the capture failed and the entry is skipped. -/
def gitInfoRec (gitInfo : Option String) (ts : Nat) : List FileRec :=
  match gitInfo with
  | some g =>
    [{ path := "git-info.json", ftype := "file", size := g.length,
       mtime := ts, checksum := some (sha256 g) }]
  | none => []

/-- Index update shared by both backup creators: `unshift` the new
record, then `cleanupOldBackups` drops the index tail beyond
`maxBackups` and removes the corresponding backup directories. -/
def pushRecord (rec : BackupRecord) (sb : StoredBackup) (st : StoreState) :
    StoreState :=
  let all := rec :: st.index
  let removed := all.drop maxBackups
  { index := all.take maxBackups,
    disk := (sb :: st.disk).filter
      (fun d => removed.all (fun r => r.id ≠ d.id)) }

/-- `createFullBackup`: back up the five targets and the Git snapshot,
record sizes and checksums, and prepend to the bounded index. -/
def createFullBackup (op : String) (ts : Nat) (gitInfo : Option String)
    (fs : WorkFS) (st : StoreState) : BackupRecord × StoreState :=
  let id := "full-" ++ op ++ "-" ++ String.mk (Js.natToStr ts)
  let (recs, tree) := backupTargets fullTargets fs
  let recs := recs ++ gitInfoRec gitInfo ts
  let rec0 : BackupRecord :=
    { id := id, btype := "full", operation := op, timestamp := ts,
      files := recs, size := totalSize recs,
      checksum := calcBackupChecksum tree }
  (rec0, pushRecord rec0 { id := id, filesTree := tree } st)

/-- `findChangedFiles`: a target is changed when it exists and is
missing from the base record, or (file) its checksum differs, or
(directory) its mtime is newer. -/
def findChangedFiles (last : BackupRecord) (fs : WorkFS) : List String :=
  incTargets.filter (fun t =>
    if t = ".team-flow" then
      match last.files.find? (fun f => f.path = t) with
      | none => true
      | some fr => fs.teamFlowMtime > fr.mtime
    else
      match getTarget fs t with
      | none => false
      | some f =>
        match last.files.find? (fun fr => fr.path = t) with
        | none => true
        | some fr => some (sha256 f.content) ≠ fr.checksum)

/-- `createIncrementalBackup`: back up only the changed targets, based
on the latest record; with an empty index it degrades to a full
backup. -/
def createIncrementalBackup (op : String) (ts : Nat) (gitInfo : Option String)
    (fs : WorkFS) (st : StoreState) : BackupRecord × StoreState :=
  match st.index.head? with
  | none => createFullBackup op ts gitInfo fs st
  | some last =>
    let id := "inc-" ++ op ++ "-" ++ String.mk (Js.natToStr ts)
    let changed := findChangedFiles last fs
    let (recs, tree) := backupTargets changed fs
    let rec0 : BackupRecord :=
      { id := id, btype := "incremental", operation := op, timestamp := ts,
        basedOn := some last.id, files := recs, size := totalSize recs,
        checksum := calcBackupChecksum tree }
    (rec0, pushRecord rec0 { id := id, filesTree := tree } st)

/-- Write one restored file into the working directory
(`fs.copy(filesPath, cwd, { overwrite: true })`, file by file). -/
def applyPair (restoreTs : Nat) (fs : WorkFS) (p : String × String) : WorkFS :=
  if p.1 = ".env" then { fs with env := some ⟨p.2, restoreTs⟩ }
  else if p.1 = "package.json" then { fs with packageJson := some ⟨p.2, restoreTs⟩ }
  else if p.1 = "package-lock.json" then { fs with packageLock := some ⟨p.2, restoreTs⟩ }
  else if p.1 = ".gitignore" then { fs with gitignore := some ⟨p.2, restoreTs⟩ }
  else fs

/-- Restore a whole `files/` tree over the working directory. -/
def applyTree (tree : List (String × String)) (fs : WorkFS) (restoreTs : Nat) :
    WorkFS :=
  tree.foldl (applyPair restoreTs) fs

/-- Convenience constructor for a working directory whose `.env` and
`package.json` are present. -/
def fsOf (e p : TargetFile) (lock gi : Option TargetFile) (tfM : Nat) : WorkFS :=
  { env := some e, packageJson := some p, packageLock := lock, gitignore := gi,
    teamFlowMtime := tfM }

/-- Result of a restore: the new working-directory state, or the thrown
error. -/
inductive RestoreResult where
  | ok (fs : WorkFS)
  | error (msg : String)
deriving DecidableEq, Repr

/-- `restoreFromBackup`: find the record, require the `files/` directory
to exist, verify the recomputed digest against the recorded one, and
overwrite the working tree from the stored files. -/
def restoreFromBackup (backupId : String) (st : StoreState) (fs : WorkFS)
    (restoreTs : Nat) : RestoreResult :=
  match st.index.find? (fun r => r.id = backupId) with
  | none => .error "backup not found"
  | some rec0 =>
    match st.disk.find? (fun d => d.id = backupId) with
    | none => .error "backup files not found"
    | some sb =>
      match sb.filesTree with
      | none => .error "backup files not found"
      | some tree =>
        if calcBackupChecksum (some tree) ≠ rec0.checksum then
          .error "backup integrity check failed"
        else
          .ok (applyTree tree fs restoreTs)

end BackupManager

namespace Samples

/-- A Finish-phase environment sitting on `main` with pending work. -/
def envMain : FinishCmd.Env :=
  { currentBranch := "main", isClean := false, prOnlyConfirm := true,
    changedFiles := ["a.txt"], selectedFiles := ["a.txt"],
    commitType := "feat", commitDescription := "add a", commitBody := "",
    commitConfirm := true, hasTests := false, runTestsConfirm := false,
    testsPass := true, testsFailContinue := false, pushSucceeds := true,
    githubConfigured := true, createPRConfirm := true, prTitle := "Add a",
    prBase := "main", notifyConfigured := false }

/-- A work status whose remote has diverged while local commits are
unpushed: both a `sync` and a `push` recommendation apply. -/
def stDiverged : WorkStatus.StatusSnapshot :=
  { isClean := true, syncStatus := .diverged, commitsSinceLastPush := 2,
    isStale := false, isLongRunning := false, hasIssue := false }

/-- A work status where a stale issue-bearing branch has unpushed
commits: both low-priority recommendations apply. -/
def stStale : WorkStatus.StatusSnapshot :=
  { isClean := true, syncStatus := .up_to_date, commitsSinceLastPush := 1,
    isStale := true, isLongRunning := false, hasIssue := true }

/-- A working directory with an `.env` and a `package.json`. -/
def fsA : BackupManager.WorkFS :=
  { env := some { content := "GITHUB_TOKEN=", mtime := 0 },
    packageJson := some { content := "x", mtime := 0 },
    packageLock := none, gitignore := none, teamFlowMtime := 0 }

/-- `fsA` after a restore at time 9: identical bytes, new mtimes. -/
def fsARestored : BackupManager.WorkFS :=
  { env := some { content := "GITHUB_TOKEN=", mtime := 9 },
    packageJson := some { content := "x", mtime := 9 },
    packageLock := none, gitignore := none, teamFlowMtime := 0 }

/-- Full backup of `fsA` into an empty store. -/
def fullRun : BackupManager.BackupRecord × BackupManager.StoreState :=
  BackupManager.createFullBackup "manual" 1 none fsA BackupManager.emptyStore

/-- No-change incremental backup of `fsA` after `fullRun`. -/
def incRun : BackupManager.BackupRecord × BackupManager.StoreState :=
  BackupManager.createIncrementalBackup "auto" 2 none fsA fullRun.2

end Samples

namespace ErrorHandler

/-- C1: `analyzeError` assigns exactly one of the four severities to
every error; each documented critical trigger (repository corruption,
permission denied / EACCES / EPERM, no disk space / ENOSPC, out of
memory / ENOMEM, authentication failure) classifies as `critical`;
each documented recoverable trigger (timeout, connection refused,
merge conflict, rate limit, file not found / ENOENT, file busy /
EBUSY) classifies as `recoverable`; an error matching none of the
documented critical/recoverable/warning triggers classifies as
`unknown`. -/
theorem errorClassification_spec :
    (∀ e : JsError,
      (analyzeError e).severity = .critical ∨
      (analyzeError e).severity = .recoverable ∨
      (analyzeError e).severity = .warning ∨
      (analyzeError e).severity = .unknown) ∧
    ((analyzeError { message := "repository is corrupt" }).severity = .critical ∧
     (analyzeError { message := "permission denied" }).severity = .critical ∧
     (analyzeError { message := "x", code := some "EACCES" }).severity = .critical ∧
     (analyzeError { message := "x", code := some "EPERM" }).severity = .critical ∧
     (analyzeError { message := "no space left on device" }).severity = .critical ∧
     (analyzeError { message := "x", code := some "ENOSPC" }).severity = .critical ∧
     (analyzeError { message := "out of memory" }).severity = .critical ∧
     (analyzeError { message := "x", code := some "ENOMEM" }).severity = .critical ∧
     (analyzeError { message := "authentication failed" }).severity = .critical) ∧
    ((analyzeError { message := "request timeout" }).severity = .recoverable ∧
     (analyzeError { message := "connection refused" }).severity = .recoverable ∧
     (analyzeError { message := "merge conflict in a.txt" }).severity = .recoverable ∧
     (analyzeError { message := "API rate limit exceeded" }).severity = .recoverable ∧
     (analyzeError { message := "x", code := some "ENOENT" }).severity = .recoverable ∧
     (analyzeError { message := "file busy" }).severity = .recoverable ∧
     (analyzeError { message := "x", code := some "EBUSY" }).severity = .recoverable) ∧
    (∀ e : JsError, isCriticalError e = false → isRecoverableError e = false →
      isWarningError e = false → (analyzeError e).severity = .unknown) := by
  refine ⟨?_, by decide, by decide, ?_⟩
  · intro e
    unfold analyzeError
    split
    · left; rfl
    · split
      · right; left; rfl
      · split
        · right; right; left; rfl
        · right; right; right; rfl
  · intro e h1 h2 h3
    unfold analyzeError
    rw [h1, h2, h3]
    simp

/-- Witness for `errorClassification_spec`: a benign error classifies
as `unknown`. -/
theorem errorClassification_spec_witness :
    (analyzeError { message := "all good" }).severity = .unknown :=
  errorClassification_spec.2.2.2 { message := "all good" }
    (by decide) (by decide) (by decide)

end ErrorHandler

namespace RecoveryManager

/-- One-step unfolding of the retry loop. -/
theorem retryAux_step (base : Nat) (op : Nat → Bool) (a r : Nat) :
    retryAux base op a (r + 1) =
      if op a then { sleeps := [base * 2 ^ (a - 1)], success := true }
      else if r = 0 then { sleeps := [base * 2 ^ (a - 1)], success := false }
      else { sleeps := base * 2 ^ (a - 1) :: (retryAux base op (a + 1) r).sleeps,
             success := (retryAux base op (a + 1) r).success } := rfl

/-- When every attempt fails, the loop sleeps the full exponential
schedule and reports failure. -/
theorem retryAux_allFail (base : Nat) (op : Nat → Bool) (hop : ∀ k, op k = false) :
    ∀ (rem a : Nat), 1 ≤ rem → 1 ≤ a →
      retryAux base op a rem =
        { sleeps := (List.range rem).map (fun i => base * 2 ^ (a - 1 + i)),
          success := false } := by
  intro rem
  induction rem with
  | zero => intro a h; omega
  | succ r ih =>
    intro a _ ha
    cases r with
    | zero =>
      rw [retryAux_step, if_neg (by simp [hop a]), if_pos rfl]
      simp [List.range_succ]
    | succ r2 =>
      have hr := ih (a + 1) (by omega) (by omega)
      rw [retryAux_step, if_neg (by simp [hop a]), if_neg (Nat.succ_ne_zero r2), hr]
      refine congrArg₂ _ ?_ rfl
      conv_rhs => rw [List.range_succ_eq_map]
      simp only [List.map_cons, List.map_map]
      refine congrArg₂ _ rfl ?_
      apply List.map_congr_left
      intro i _
      simp only [Function.comp_apply]
      have he : a + 1 - 1 + i = a - 1 + (i + 1) := by omega
      rw [he]

/-- The `j`-th sleep (0-based) of a run whose first `j` attempts fail is
`base * 2^(a-1+j)`. -/
theorem retryAux_getSleep (base : Nat) (op : Nat → Bool) :
    ∀ (j rem a : Nat), 1 ≤ a → j < rem →
      (∀ k, a ≤ k → k < a + j → op k = false) →
      ((retryAux base op a rem).sleeps)[j]? = some (base * 2 ^ (a - 1 + j)) := by
  intro j
  induction j with
  | zero =>
    intro rem a _ hrem _
    cases rem with
    | zero => omega
    | succ r =>
      rw [retryAux_step]
      cases hopa : op a <;> cases r <;> simp
  | succ j ih =>
    intro rem a ha hrem hfail
    cases rem with
    | zero => omega
    | succ r =>
      have hopa : op a = false := hfail a (by omega) (by omega)
      cases r with
      | zero => omega
      | succ r2 =>
        have hrec := ih (r2 + 1) (a + 1) (by omega) (by omega)
          (fun k hk1 hk2 => hfail k (by omega) (by omega))
        rw [retryAux_step, if_neg (by simp [hopa]), if_neg (Nat.succ_ne_zero r2)]
        simp only [List.getElem?_cons_succ]
        rw [hrec]
        have he : a + 1 - 1 + j = a - 1 + (j + 1) := by omega
        rw [he]

/-- C2: with base delay 1 s and the default `maxRetries = 3`, the `N`-th
retry attempt (1 ≤ N ≤ 3) is preceded by a sleep of exactly
`base * 2^(N-1)`, and when all attempts fail the run performs exactly
the three sleeps 1 s, 2 s, 4 s and returns failure with no further
retry. -/
theorem backoffSchedule_spec :
    (∀ (op : Nat → Bool) (N : Nat), 1 ≤ N → N ≤ maxRetriesDefault →
      (∀ k, 1 ≤ k → k < N → op k = false) →
      ∃ run, retryWithBackoff retryDelay maxRetriesDefault op = some run ∧
        run.sleeps[N - 1]? = some (retryDelay * 2 ^ (N - 1))) ∧
    (∀ op : Nat → Bool, (∀ k, op k = false) →
      retryWithBackoff retryDelay maxRetriesDefault op =
        some { sleeps := [1000, 2000, 4000], success := false }) := by
  constructor
  · intro op N h1 h3 hfail
    have h3' : N ≤ 3 := h3
    refine ⟨retryAux retryDelay op 1 maxRetriesDefault,
      by simp [retryWithBackoff, maxRetriesDefault], ?_⟩
    have hs := retryAux_getSleep retryDelay op (N - 1) maxRetriesDefault 1 (by omega)
      (show N - 1 < 3 by omega)
      (fun k hk1 hk2 => hfail k hk1 (by omega))
    rw [hs]
    have he : 1 - 1 + (N - 1) = N - 1 := by omega
    rw [he]
  · intro op hop
    have hall := retryAux_allFail retryDelay op hop maxRetriesDefault 1
      (by decide) (by decide)
    simp only [retryWithBackoff]
    rw [if_neg (by decide), hall]
    decide

/-- Witness for `backoffSchedule_spec`: with an always-failing
operation, the second retry is preceded by a 2-second sleep, and the
whole run performs the schedule `[1000, 2000, 4000]` and fails. -/
theorem backoffSchedule_spec_witness :
    (∃ run, retryWithBackoff retryDelay maxRetriesDefault (fun _ => false) = some run ∧
      run.sleeps[1]? = some (retryDelay * 2 ^ 1)) ∧
    retryWithBackoff retryDelay maxRetriesDefault (fun _ => false) =
      some { sleeps := [1000, 2000, 4000], success := false } :=
  ⟨backoffSchedule_spec.1 (fun _ => false) 2 (by decide) (by decide)
      (fun _ _ _ => rfl),
    backoffSchedule_spec.2 (fun _ => false) (fun _ => rfl)⟩

end RecoveryManager

namespace RateLimitManager

/-- C3 counterexample: with `remaining = 0` and `reset = now + 100s`,
the pre-dispatch gate `checkAndWaitForRateLimit` sleeps exactly
100 000 ms — until `reset_epoch`, not until `reset_epoch + 1s` as the
claim states (the sleep list is not `[101000]`). -/
theorem rateLimitSlack_counterexample :
    checkAndWaitForRateLimit
        (some { limit := 5000, remaining := 0, reset := 100, used := 5000 }) 0 =
      [100000] ∧
    checkAndWaitForRateLimit
        (some { limit := 5000, remaining := 0, reset := 100, used := 5000 }) 0 ≠
      [100000 + 1000] := by
  constructor
  · decide
  · decide

/-- C3 (amended): when the rate-limit state shows `remaining = 0` with
`reset_epoch = now + T` (T > 0), the gate sleeps exactly `T` before
the next dispatch (delay ≥ T, with no 1-second slack); the
`+1s` slack is applied only by `waitForRateLimit` in the 403
rate-limit-error retry path, which sleeps `T + 1000`. -/
theorem rateLimitGating_amended :
    (∀ (st : RateLimitState) (now T : Nat), st.remaining = 0 →
      st.reset * 1000 = now + T → 0 < T →
      checkAndWaitForRateLimit (some st) now = [T]) ∧
    (∀ (resetSec now T : Nat), resetSec * 1000 = now + T →
      waitForRateLimit (some resetSec) now = T + 1000) := by
  constructor
  · intro st now T hrem hreset hT
    have hcast : (st.reset : Int) * 1000 - (now : Int) = (T : Int) := by
      have h0 : ((st.reset * 1000 : Nat) : Int) = ((now + T : Nat) : Int) :=
        congrArg (Nat.cast : Nat → Int) hreset
      push_cast at h0
      omega
    simp only [checkAndWaitForRateLimit, hrem, Nat.le_refl, if_pos, hcast]
    rw [if_pos (by exact_mod_cast hT)]
    simp
  · intro resetSec now T hreset
    have hcast : (resetSec : Int) * 1000 - (now : Int) = (T : Int) := by
      have h0 : ((resetSec * 1000 : Nat) : Int) = ((now + T : Nat) : Int) :=
        congrArg (Nat.cast : Nat → Int) hreset
      push_cast at h0
      omega
    simp only [waitForRateLimit, hcast]
    simp

/-- Witness for `rateLimitGating_amended`: at `remaining = 0`,
`reset = 100 s`, `now = 40 000 ms`, the gate sleeps 60 000 ms and the
403 path sleeps 61 000 ms. -/
theorem rateLimitGating_amended_witness :
    checkAndWaitForRateLimit
        (some { limit := 5000, remaining := 0, reset := 100, used := 5000 }) 40000 =
      [60000] ∧
    waitForRateLimit (some 100) 40000 = 60000 + 1000 :=
  ⟨rateLimitGating_amended.1 { limit := 5000, remaining := 0, reset := 100, used := 5000 }
      40000 60000 rfl (by decide) (by decide),
    rateLimitGating_amended.2 100 40000 60000 (by decide)⟩

end RateLimitManager

namespace FinishCmd

/-- C4: running the Finish phase on `main` or `master` terminates with
the default-branch abort from `checkWorkStatus` before any effect is
performed: no file is staged, no commit, push or pull-request
creation is attempted, and the effect trace is empty. -/
theorem finishBranchGuard_spec :
    ∀ env : Env, (env.currentBranch = "main" ∨ env.currentBranch = "master") →
      finishCommand env = ([], .failed .onDefaultBranch) := by
  intro env h
  have hb : (env.currentBranch = "main" || env.currentBranch = "master") = true := by
    rcases h with h | h <;> simp [h]
  simp [finishCommand, checkWorkStatus, hb]

/-- Witness for `finishBranchGuard_spec`: a Finish run on `main` with
staged-work answers prepared produces no effects and the
default-branch failure. -/
theorem finishBranchGuard_spec_witness :
    finishCommand Samples.envMain = ([], .failed .onDefaultBranch) :=
  finishBranchGuard_spec Samples.envMain (Or.inl rfl)

end FinishCmd

namespace WorkStatus

/-- All elements of one priority class are mutually ordered. -/
theorem pairwise_filter_class (l : List Recommendation) (pr : Priority) :
    List.Pairwise (fun a b => priorityOrder b.priority ≤ priorityOrder a.priority)
      (l.filter (·.priority = pr)) := by
  apply List.pairwise_of_forall_mem_list
  intro a ha b hb
  have ha2 := (List.mem_filter.mp ha).2
  have hb2 := (List.mem_filter.mp hb).2
  simp only [decide_eq_true_eq] at ha2 hb2
  rw [ha2, hb2]

/-- Every pair of elements of `sortByPriority l` is ordered by
non-increasing priority. -/
theorem sortByPriority_pairwise (l : List Recommendation) :
    List.Pairwise (fun a b => priorityOrder b.priority ≤ priorityOrder a.priority)
      (sortByPriority l) := by
  unfold sortByPriority
  rw [List.pairwise_append]
  refine ⟨?_, pairwise_filter_class l .low, ?_⟩
  · rw [List.pairwise_append]
    refine ⟨pairwise_filter_class l .high, pairwise_filter_class l .medium, ?_⟩
    intro a ha b hb
    have ha2 := (List.mem_filter.mp ha).2
    have hb2 := (List.mem_filter.mp hb).2
    simp only [decide_eq_true_eq] at ha2 hb2
    rw [ha2, hb2]
    decide
  · intro a ha b hb
    have hb2 := (List.mem_filter.mp hb).2
    simp only [decide_eq_true_eq] at hb2
    rcases List.mem_append.mp ha with ha | ha <;>
    · have ha2 := (List.mem_filter.mp ha).2
      simp only [decide_eq_true_eq] at ha2
      rw [ha2, hb2]
      decide

/-- C9 counterexample: with a diverged remote and unpushed commits,
both a `sync` and a `push` recommendation apply, and the emitted
order is `[sync, push]` — not `[push, sync]` as the claimed ranking
`… push > sync …` requires. -/
theorem recommendationOrder_counterexample :
    (generateRecommendations Samples.stDiverged).map (·.action) =
      [RecAction.sync, RecAction.push] ∧
    (generateRecommendations Samples.stDiverged).map (·.action) ≠
      [RecAction.push, RecAction.sync] := by
  constructor
  · decide
  · decide

/-- C9 (amended): the recommendation list is ordered by priority from
high to low; when several types apply simultaneously the emitted
order is commit > pull > sync (high), then push > test (medium), then
update_status > update_issue (low) — the stable sort preserves
generation order inside each priority class. -/
theorem recommendationOrder_amended :
    ∀ s : StatusSnapshot,
      List.Pairwise (fun a b => priorityOrder b.priority ≤ priorityOrder a.priority)
        (generateRecommendations s) ∧
      (generateRecommendations s).map (·.action) =
        ((if !s.isClean then [RecAction.commit] else []) ++
         (if s.syncStatus = .behind then [RecAction.pull] else []) ++
         (if s.syncStatus = .diverged then [RecAction.sync] else []) ++
         (if s.commitsSinceLastPush > 0 then [RecAction.push] else []) ++
         (if s.isLongRunning then [RecAction.test] else []) ++
         (if s.isStale then [RecAction.update_status] else []) ++
         (if s.hasIssue && s.commitsSinceLastPush > 0 then
           [RecAction.update_issue] else [])) := by
  intro s
  refine ⟨sortByPriority_pairwise _, ?_⟩
  simp only [generateRecommendations, sortByPriority, buildRecommendations,
    List.filter_append, List.map_append]
  split_ifs <;> simp

end WorkStatus

namespace CommitHelper

/-- Unfolding of the validator on a non-empty input. -/
theorem descriptionAccepts_cons (c : Char) (rest : List Char) :
    descriptionAccepts (c :: rest) =
      (if (Js.jsTrim (c :: rest)).isEmpty then false
       else if (c :: rest).length > 72 then false
       else if jsCharToUpper c = [c] then false
       else if (c :: rest).getLast? = some '.' then false
       else true) := rfl

/-- C10: the Conventional-Commits description validator accepts only
inputs that are non-empty after trimming, at most 72 characters, do
not end with a period, and whose first character differs from its
own upper-cased form; consequently every input whose first character
upper-cases to itself (digits, punctuation, Japanese and other
caseless characters — not only upper-case Latin letters) is
rejected. -/
theorem descriptionValidator_spec :
    (∀ l : List Char, descriptionAccepts l = true →
      Js.jsTrim l ≠ [] ∧ l.length ≤ 72 ∧ l.getLast? ≠ some '.' ∧
      ∃ c rest, l = c :: rest ∧ jsCharToUpper c ≠ [c]) ∧
    (∀ (c : Char) (rest : List Char), jsCharToUpper c = [c] →
      descriptionAccepts (c :: rest) = false) := by
  constructor
  · intro l h
    cases l with
    | nil => exact absurd h (by decide)
    | cons c rest =>
      rw [descriptionAccepts_cons] at h
      split at h
      · exact absurd h (by simp)
      next hne =>
        split at h
        · exact absurd h (by simp)
        next hlen =>
          split at h
          · exact absurd h (by simp)
          next hup =>
            split at h
            · exact absurd h (by simp)
            next hdot =>
              refine ⟨?_, by omega, hdot, c, rest, rfl, hup⟩
              intro hx
              rw [hx] at hne
              exact hne rfl
  · intro c rest hup
    simp [descriptionAccepts_cons, hup]

/-- Witness for `descriptionValidator_spec`: the accepted description
`"add user login"` satisfies all four conditions, and a description
starting with a digit is rejected. -/
theorem descriptionValidator_spec_witness :
    (Js.jsTrim "add user login".data ≠ [] ∧ "add user login".data.length ≤ 72 ∧
      "add user login".data.getLast? ≠ some '.' ∧
      ∃ c rest, "add user login".data = c :: rest ∧ jsCharToUpper c ≠ [c]) ∧
    descriptionAccepts ('1' :: "23fix".data) = false :=
  ⟨descriptionValidator_spec.1 "add user login".data (by decide),
    descriptionValidator_spec.2 '1' "23fix".data (by decide)⟩

end CommitHelper

namespace BackupManager

/-- The sortedness relation of the backup index: most recent first. -/
abbrev RecentFirst (l : List BackupRecord) : Prop :=
  List.Pairwise (fun a b => b.timestamp ≤ a.timestamp) l

/-- `pushRecord` (unshift + `cleanupOldBackups`) keeps the index sorted
most-recent-first, caps it at `maxBackups`, drops exactly the tail
beyond the cap, and removes the dropped records' directories. -/
theorem pushRecord_spec (rec : BackupRecord) (sb : StoredBackup) (st : StoreState)
    (hsort : RecentFirst st.index)
    (hts : ∀ r ∈ st.index, r.timestamp ≤ rec.timestamp) :
    (pushRecord rec sb st).index = (rec :: st.index).take maxBackups ∧
    RecentFirst (pushRecord rec sb st).index ∧
    (pushRecord rec sb st).index.length ≤ maxBackups ∧
    (pushRecord rec sb st).index ++ (rec :: st.index).drop maxBackups =
      rec :: st.index ∧
    (∀ r ∈ (rec :: st.index).drop maxBackups, ∀ d ∈ (pushRecord rec sb st).disk,
      r.id ≠ d.id) := by
  have hcons : RecentFirst (rec :: st.index) := by
    rw [RecentFirst, List.pairwise_cons]
    exact ⟨hts, hsort⟩
  refine ⟨rfl, ?_, ?_, ?_, ?_⟩
  · exact hcons.sublist (List.take_sublist _ _)
  · exact List.length_take_le _ _
  · exact List.take_append_drop _ _
  · intro r hr d hd
    have hp := (List.mem_filter.mp hd).2
    rw [List.all_eq_true] at hp
    have := hp r hr
    simpa using this

/-- C6: every backup-creating operation (`createFullBackup` and
`createIncrementalBackup`) prepends its new record, so that — given a
most-recent-first index and a timestamp at least as new as every
existing record — the index stays ordered most-recent-first, holds
at most 10 records, and the excess oldest (tail) records are dropped
from the index with their backup directories removed from disk. -/
theorem backupRetention_spec :
    ∀ (op : String) (ts : Nat) (gitInfo : Option String) (fs : WorkFS)
      (st : StoreState),
      RecentFirst st.index →
      (∀ r ∈ st.index, r.timestamp ≤ ts) →
      ((createFullBackup op ts gitInfo fs st).2.index =
        ((createFullBackup op ts gitInfo fs st).1 :: st.index).take maxBackups ∧
       RecentFirst (createFullBackup op ts gitInfo fs st).2.index ∧
       (createFullBackup op ts gitInfo fs st).2.index.length ≤ maxBackups ∧
       (createFullBackup op ts gitInfo fs st).2.index ++
         ((createFullBackup op ts gitInfo fs st).1 :: st.index).drop maxBackups =
         (createFullBackup op ts gitInfo fs st).1 :: st.index ∧
       (∀ r ∈ ((createFullBackup op ts gitInfo fs st).1 :: st.index).drop maxBackups,
         ∀ d ∈ (createFullBackup op ts gitInfo fs st).2.disk, r.id ≠ d.id)) ∧
      ((createIncrementalBackup op ts gitInfo fs st).2.index =
        ((createIncrementalBackup op ts gitInfo fs st).1 :: st.index).take maxBackups ∧
       RecentFirst (createIncrementalBackup op ts gitInfo fs st).2.index ∧
       (createIncrementalBackup op ts gitInfo fs st).2.index.length ≤ maxBackups ∧
       (createIncrementalBackup op ts gitInfo fs st).2.index ++
         ((createIncrementalBackup op ts gitInfo fs st).1 :: st.index).drop maxBackups =
         (createIncrementalBackup op ts gitInfo fs st).1 :: st.index ∧
       (∀ r ∈ ((createIncrementalBackup op ts gitInfo fs st).1 :: st.index).drop
           maxBackups,
         ∀ d ∈ (createIncrementalBackup op ts gitInfo fs st).2.disk, r.id ≠ d.id)) := by
  intro op ts gitInfo fs st hsort hts
  constructor
  · exact pushRecord_spec _ _ st hsort (fun r hr => hts r hr)
  · cases hh : st.index.head? with
    | none =>
      have he : createIncrementalBackup op ts gitInfo fs st =
          createFullBackup op ts gitInfo fs st := by
        unfold createIncrementalBackup
        rw [hh]
      rw [he]
      exact pushRecord_spec _ _ st hsort (fun r hr => hts r hr)
    | some last =>
      have he : createIncrementalBackup op ts gitInfo fs st =
          (let id := "inc-" ++ op ++ "-" ++ String.mk (Js.natToStr ts)
           let changed := findChangedFiles last fs
           let pr := backupTargets changed fs
           let rec0 : BackupRecord :=
             { id := id, btype := "incremental", operation := op, timestamp := ts,
               basedOn := some last.id, files := pr.1, size := totalSize pr.1,
               checksum := calcBackupChecksum pr.2 }
           (rec0, pushRecord rec0 { id := id, filesTree := pr.2 } st)) := by
        unfold createIncrementalBackup
        rw [hh]
      rw [he]
      exact pushRecord_spec _ _ st hsort (fun r hr => hts r hr)

/-- Witness for `backupRetention_spec`: creating a full and then an
incremental backup in an empty store yields a two-element,
most-recent-first index with nothing dropped. -/
theorem backupRetention_spec_witness :
    (Samples.incRun.2.index =
      (Samples.incRun.1 :: Samples.fullRun.2.index).take maxBackups ∧
     RecentFirst Samples.incRun.2.index) := by
  have h := (backupRetention_spec "auto" 2 none Samples.fsA Samples.fullRun.2
    (by decide)
    (by decide)).2
  exact ⟨h.1, h.2.1⟩

end BackupManager

namespace BackupManager

set_option maxHeartbeats 2000000 in
/-- C7: for every starting state of the backed-up target paths, a full
backup followed by a no-change incremental backup yields an
incremental record whose files list is empty (only `.team-flow` is
reported changed — it is never recorded in the base backup — and its
copy into its own subdirectory fails, though `ensureDir` has already
created the `files/` directory); restoring from the no-change
incremental then verifies against the empty-directory digest and
succeeds as a no-op, leaving the (unchanged) tree byte-identical, and
restoring from the full backup overwrites every backed-up target with
the same bytes. -/
theorem backupIdempotence_spec :
    ∀ (fs0 : WorkFS) (op1 op2 : String) (ts1 ts2 rts : Nat)
      (g1 g2 : Option String) (full inc : BackupRecord × StoreState),
      full = createFullBackup op1 ts1 g1 fs0 emptyStore →
      inc = createIncrementalBackup op2 ts2 g2 fs0 full.2 →
      full.1.id ≠ inc.1.id →
      inc.1.btype = "incremental" ∧
      inc.1.files = [] ∧
      restoreFromBackup inc.1.id inc.2 fs0 rts = RestoreResult.ok fs0 ∧
      ∃ fs', restoreFromBackup full.1.id inc.2 fs0 rts =
          RestoreResult.ok fs' ∧
        fs'.env.map (fun f => f.content) = fs0.env.map (fun f => f.content) ∧
        fs'.packageJson.map (fun f => f.content) =
          fs0.packageJson.map (fun f => f.content) ∧
        fs'.packageLock.map (fun f => f.content) =
          fs0.packageLock.map (fun f => f.content) ∧
        fs'.gitignore.map (fun f => f.content) =
          fs0.gitignore.map (fun f => f.content) := by
  intro fs0 op1 op2 ts1 ts2 rts g1 g2 full inc hfull hinc hid
  subst hfull
  subst hinc
  obtain ⟨env, pj, lock, gi, tfm⟩ := fs0
  cases env <;> cases pj <;> cases lock <;> cases gi <;> cases g1 <;>
  · simp [createFullBackup, createIncrementalBackup, backupTargets, backupTargetsAux,
      backupTarget, getTarget, fullTargets, incTargets, findChangedFiles,
      pushRecord, maxBackups, restoreFromBackup, gitInfoRec, calcBackupChecksum,
      sha256, emptyStore, List.find?, applyTree, applyPair] at hid ⊢
    simp [Ne.symm hid, applyPair]

/-- Witness for `backupIdempotence_spec`: the concrete `fsA` scenario —
the no-change incremental has an empty files list, restoring from it
succeeds as a no-op, and restoring from the full backup reproduces
the same contents. -/
theorem backupIdempotence_spec_witness :
    Samples.incRun.1.btype = "incremental" ∧
    Samples.incRun.1.files = [] ∧
    restoreFromBackup Samples.incRun.1.id Samples.incRun.2 Samples.fsA 9 =
      RestoreResult.ok Samples.fsA ∧
    ∃ fs', restoreFromBackup Samples.fullRun.1.id Samples.incRun.2 Samples.fsA 9 =
        RestoreResult.ok fs' ∧
      fs'.env.map (fun f => f.content) = Samples.fsA.env.map (fun f => f.content) ∧
      fs'.packageJson.map (fun f => f.content) =
        Samples.fsA.packageJson.map (fun f => f.content) ∧
      fs'.packageLock.map (fun f => f.content) =
        Samples.fsA.packageLock.map (fun f => f.content) ∧
      fs'.gitignore.map (fun f => f.content) =
        Samples.fsA.gitignore.map (fun f => f.content) :=
  backupIdempotence_spec Samples.fsA "manual" "auto" 1 2 9 none none
    Samples.fullRun Samples.incRun rfl rfl (by decide)

end BackupManager

namespace Logging

def ghpRepl : List Char := "ghp_***masked***".data

theorem hasGhpTok_mask_append (X : List Char) :
    hasGhpTok (ghpRepl ++ X) = hasGhpTok X := by
  simp +decide [ghpRepl, hasGhpTok, startsGhpTok]

theorem scanRepAux_ghp_step (f : Nat) (c : Char) (rest : List Char) :
    scanRepAux ghpRepl matchGhp (f + 1) (c :: rest) =
      (match matchGhp (c :: rest) with
       | some r => ghpRepl ++ scanRepAux ghpRepl matchGhp f r
       | none => c :: scanRepAux ghpRepl matchGhp f rest) := rfl

theorem scanRepAux_nil (repl : List Char) (m : List Char → Option (List Char))
    (fuel : Nat) : scanRepAux repl m fuel [] = [] := by
  cases fuel <;> rfl

theorem scanGhp_out_cons (fuel : Nat) (z : List Char) (d : Char) (Y : List Char)
    (hlen : z.length ≤ fuel)
    (hout : scanRepAux ghpRepl matchGhp fuel z = d :: Y) (hd : d ≠ 'g') :
    ∃ z' fuel', z = d :: z' ∧ fuel = fuel' + 1 ∧ z'.length ≤ fuel' ∧
      matchGhp (d :: z') = none ∧ Y = scanRepAux ghpRepl matchGhp fuel' z' := by
  cases fuel with
  | zero =>
    have hz : z = [] := List.eq_nil_of_length_eq_zero (Nat.le_zero.mp hlen)
    rw [hz, scanRepAux_nil] at hout
    exact absurd hout (by simp)
  | succ f =>
    cases z with
    | nil =>
      rw [scanRepAux_nil] at hout
      exact absurd hout (by simp)
    | cons c rest =>
      rw [scanRepAux_ghp_step] at hout
      cases hm : matchGhp (c :: rest) with
      | some r =>
        rw [hm] at hout
        have hout2 : ghpRepl ++ scanRepAux ghpRepl matchGhp f r = d :: Y := hout
        have hg : d = 'g' := by
          have hh : (ghpRepl ++ scanRepAux ghpRepl matchGhp f r).head? = some d := by
            rw [hout2]; rfl
          rw [List.head?_append_of_ne_nil _ (by decide)] at hh
          simp [ghpRepl] at hh
          exact hh.symm
        exact absurd hg hd
      | none =>
        rw [hm] at hout
        have hout2 : c :: scanRepAux ghpRepl matchGhp f rest = d :: Y := hout
        injection hout2 with h1 h2
        subst h1
        exact ⟨rest, f, rfl, rfl, by simpa using hlen, hm, h2.symm⟩

theorem matchGhp_eq_some_shape :
    ∀ l r, matchGhp l = some r →
      ∃ w t, l = 'g' :: 'h' :: 'p' :: '_' :: w :: t ∧ Js.isWordChar w = true := by
  intro l r h
  unfold matchGhp at h
  split at h
  · rename_i c1 c2 c3 c4 c rest
    split at h
    · rename_i hcond
      simp only [Bool.and_eq_true, decide_eq_true_eq] at hcond
      obtain ⟨⟨⟨⟨h1, h2⟩, h3⟩, h4⟩, h5⟩ := hcond
      exact ⟨c, rest, by rw [h1, h2, h3, h4], h5⟩
    · exact absurd h (by simp)
  · exact absurd h (by simp)

theorem scanGhp_no_leak :
    ∀ (fuel : Nat) (z : List Char), z.length ≤ fuel →
      hasGhpTok (scanRepAux ghpRepl matchGhp fuel z) = false := by
  intro fuel
  induction fuel with
  | zero =>
    intro z hlen
    rw [List.eq_nil_of_length_eq_zero (Nat.le_zero.mp hlen), scanRepAux_nil]
    rfl
  | succ f ih =>
    intro z hlen
    cases z with
    | nil => rw [scanRepAux_nil]; rfl
    | cons c rest =>
      rw [scanRepAux_ghp_step]
      have hrest : rest.length ≤ f := by
        simp only [List.length_cons] at hlen; omega
      cases hm : matchGhp (c :: rest) with
      | some r =>
        have hr : r.length ≤ f := by
          have := matchGhp_consumes _ _ hm
          simp only [List.length_cons] at this hlen
          omega
        rw [hasGhpTok_mask_append]
        exact ih r hr
      | none =>
        have htail : hasGhpTok (scanRepAux ghpRepl matchGhp f rest) = false :=
          ih rest hrest
        rw [show hasGhpTok (c :: scanRepAux ghpRepl matchGhp f rest) =
            (startsGhpTok (c :: scanRepAux ghpRepl matchGhp f rest) ||
             hasGhpTok (scanRepAux ghpRepl matchGhp f rest)) from rfl]
        rw [htail, Bool.or_false]
        by_contra hfalse
        rw [Bool.not_eq_false] at hfalse
        unfold startsGhpTok at hfalse
        simp only [Bool.and_eq_true, decide_eq_true_eq, List.head?_cons,
          Option.some.injEq, List.drop_succ_cons, List.drop_zero] at hfalse
        obtain ⟨⟨⟨⟨hc, h1⟩, h2⟩, h3⟩, h4⟩ := hfalse
        subst hc
        cases hY1 : scanRepAux ghpRepl matchGhp f rest with
        | nil => rw [hY1] at h1; exact absurd h1 (by simp)
        | cons y1 Y1 =>
          rw [hY1] at h1 h2 h3 h4
          simp only [List.head?_cons, Option.some.injEq] at h1
          subst h1
          obtain ⟨z1, f1, hz1, hf1, hlen1, hm1, hY1e⟩ :=
            scanGhp_out_cons f rest 'h' Y1 hrest hY1 (by decide)
          simp only [List.drop_succ_cons, List.drop_zero] at h2 h3 h4
          cases hY2 : Y1 with
          | nil => rw [hY2] at h2; exact absurd h2 (by simp)
          | cons y2 Y2 =>
            rw [hY2] at h2 h3 h4
            simp only [List.head?_cons, Option.some.injEq] at h2
            subst h2
            obtain ⟨z2, f2, hz2, hf2, hlen2, hm2, hY2e⟩ :=
              scanGhp_out_cons f1 z1 'p' Y2 hlen1 (hY1e.symm.trans hY2) (by decide)
            simp only [List.drop_succ_cons, List.drop_zero] at h3 h4
            cases hY3 : Y2 with
            | nil => rw [hY3] at h3; exact absurd h3 (by simp)
            | cons y3 Y3 =>
              rw [hY3] at h3 h4
              simp only [List.head?_cons, Option.some.injEq] at h3
              subst h3
              obtain ⟨z3, f3, hz3, hf3, hlen3, hm3, hY3e⟩ :=
                scanGhp_out_cons f2 z2 '_' Y3 hlen2 (hY2e.symm.trans hY3) (by decide)
              simp only [List.drop_succ_cons, List.drop_zero] at h4
              cases z3 with
              | nil =>
                rw [hY3e, scanRepAux_nil] at h4
                exact absurd h4 (by simp)
              | cons a z4 =>
                obtain ⟨f4, rfl⟩ : ∃ f4, f3 = f4 + 1 := by
                  refine ⟨f3 - 1, ?_⟩
                  simp only [List.length_cons] at hlen3
                  omega
                have haw : Js.isWordChar a = true := by
                  cases hm4 : matchGhp (a :: z4) with
                  | some r4 =>
                    obtain ⟨w, t, hshape, hw⟩ := matchGhp_eq_some_shape _ _ hm4
                    have ha : a = 'g' := by injection hshape
                    rw [ha]; decide
                  | none =>
                    rw [hY3e, scanRepAux_ghp_step, hm4] at h4
                    simpa using h4
                have hsome : matchGhp ('g' :: 'h' :: 'p' :: '_' :: a :: z4) =
                    some ((a :: z4).dropWhile Js.isWordChar) := by
                  unfold matchGhp
                  simp [haw]
                rw [hz1, hz2, hz3] at hm
                rw [hm] at hsome
                exact absurd hsome (by simp)

end Logging

namespace Logging

/-- C8 counterexample: the plain logging path applies no masking — the
emitted `info` log line for a message holding a `ghp_` token contains
the token verbatim and no `ghp_***masked***` substitution. -/
theorem secretMasking_counterexample :
    writeToFileLine "2025-01-01T00:00:00.000Z".data "info".data "ghp_abc123".data =
      "[2025-01-01T00:00:00.000Z] [INFO] ghp_abc123".data ∧
    hasGhpTok (writeToFileLine "2025-01-01T00:00:00.000Z".data "info".data
      "ghp_abc123".data) = true ∧
    Js.containsSub (writeToFileLine "2025-01-01T00:00:00.000Z".data "info".data
      "ghp_abc123".data) "ghp_***masked***".data = false := by
  refine ⟨by decide, by decide, by decide⟩

/-- C8 (amended): for log records emitted through `securityLog`, every
structured-data key whose lowercased name contains `token`,
`password`, `secret`, `key`, `auth` or `credential` has its value
replaced by `***masked***` (others pass through unchanged); the
masked message contains no remaining `ghp_` token; and
`token:`/`password:`-style values are substituted, as witnessed on
canonical messages and a full `securityLog` line. -/
theorem secretMasking_amended :
    (∀ (data : DataObj) (kv : String × String), kv ∈ maskSensitiveData data →
      isSensitiveKey kv.1 = true → kv.2 = "***masked***") ∧
    (∀ (data : DataObj) (kv : String × String), kv ∈ data →
      isSensitiveKey kv.1 = false → kv ∈ maskSensitiveData data) ∧
    (∀ msg : List Char, hasGhpTok (maskSensitiveMessage msg) = false) ∧
    (maskSensitiveMessage "token: abc123".data = "token: ***masked***".data ∧
     maskSensitiveMessage "password: hunter2".data = "password: ***masked***".data ∧
     securityLogLine "2025-01-01T00:00:00.000Z".data "info".data
         "push failed: token: ghp_abc123".data =
       "[2025-01-01T00:00:00.000Z] [INFO] push failed: token: ***masked***".data) := by
  refine ⟨?_, ?_, ?_, by decide, by decide, by decide⟩
  · intro data kv hmem hsens
    unfold maskSensitiveData at hmem
    obtain ⟨kv0, hkv0, hf⟩ := List.mem_map.mp hmem
    by_cases hs0 : isSensitiveKey kv0.1
    · rw [if_pos hs0] at hf
      rw [← hf]
    · rw [if_neg hs0] at hf
      rw [← hf] at hsens
      exact absurd hsens (by simp [hs0])
  · intro data kv hmem hsens
    unfold maskSensitiveData
    refine List.mem_map.mpr ⟨kv, hmem, ?_⟩
    rw [if_neg (by simp [hsens])]
  · intro msg
    unfold maskSensitiveMessage replaceGhpPat scanRep
    exact scanGhp_no_leak _ _ le_rfl

/-- Witness for `secretMasking_amended`: a `Token`-named key is masked
and a benign key passes through. -/
theorem secretMasking_amended_witness :
    (("apiToken", "***masked***") : String × String).2 = "***masked***" ∧
    (("msg", "hi") : String × String) ∈ maskSensitiveData [("msg", "hi")] :=
  ⟨secretMasking_amended.1 [("apiToken", "ghp_raw")] ("apiToken", "***masked***")
      (by decide) (by decide),
    secretMasking_amended.2.1 [("msg", "hi")] ("msg", "hi") (by decide) (by decide)⟩

end Logging

namespace BranchPlan

theorem collapseWs_chars :
    ∀ (l : List Char) (b : Bool), (∀ c ∈ l, slugKeep c = true) →
      ∀ c ∈ collapseWsAux b l, slugChar c = true := by
  intro l
  induction l with
  | nil => intro b _ c hc; simp [collapseWsAux] at hc
  | cons d rest ih =>
    intro b hall c hc
    have hd := hall d (List.mem_cons_self d rest)
    have hrest : ∀ x ∈ rest, slugKeep x = true :=
      fun x hx => hall x (List.mem_cons_of_mem d hx)
    unfold collapseWsAux at hc
    by_cases hsp : Js.isJsSpace d
    · rw [if_pos hsp] at hc
      by_cases hb : b
      · rw [if_pos hb] at hc
        exact ih true hrest c hc
      · rw [if_neg hb] at hc
        rcases List.mem_cons.mp hc with hdash | hc2
        · rw [hdash]; decide
        · exact ih true hrest c hc2
    · rw [if_neg hsp] at hc
      rcases List.mem_cons.mp hc with hcd | hc2
      · subst hcd
        unfold slugKeep at hd
        unfold slugChar
        simp only [Bool.or_eq_true] at hd ⊢
        rcases hd with ((h1 | h2) | h3) | h4
        · exact Or.inl (Or.inl h1)
        · exact Or.inl (Or.inr h2)
        · exact absurd h3 (by simp [hsp])
        · exact Or.inr h4
      · exact ih false hrest c hc2

theorem titleSlug_chars (title : String) :
    ∀ c ∈ titleSlug title, slugChar c = true := by
  intro c hc
  unfold titleSlug at hc
  have hc2 := List.mem_of_mem_take hc
  exact collapseWs_chars _ false
    (fun x hx => (List.mem_filter.mp hx).2) c hc2

theorem titleSlug_len (title : String) : (titleSlug title).length ≤ 30 :=
  List.length_take_le 30 _

theorem digitChar_range (d : Nat) (hd : d < 10) :
    '0' ≤ Js.digitChar d ∧ Js.digitChar d ≤ '9' := by
  interval_cases d <;> exact ⟨by decide, by decide⟩

theorem natToStrAux_digits :
    ∀ (fuel n : Nat) (c : Char), c ∈ Js.natToStrAux fuel n →
      '0' ≤ c ∧ c ≤ '9' := by
  intro fuel
  induction fuel with
  | zero => intro n c hc; simp [Js.natToStrAux] at hc
  | succ f ih =>
    intro n c hc
    unfold Js.natToStrAux at hc
    by_cases hn : n < 10
    · rw [if_pos hn] at hc
      rcases List.mem_singleton.mp hc with rfl
      exact digitChar_range n hn
    · rw [if_neg hn] at hc
      rcases List.mem_append.mp hc with hc2 | hc2
      · exact ih _ c hc2
      · rcases List.mem_singleton.mp hc2 with rfl
        exact digitChar_range _ (Nat.mod_lt _ (by omega))

theorem wt_chars (wt : WorkType) :
    ∀ c ∈ (WorkType.str wt).data, 'a' ≤ c ∧ c ≤ 'z' := by
  cases wt <;> decide

theorem name_chars (wt : WorkType) (info : IssueInfo) :
    ∀ c ∈ generateBranchName wt info, nameChar c = true := by
  intro c hc
  obtain ⟨num, title⟩ := info
  have hwt : ∀ x ∈ (WorkType.str wt).data, nameChar x = true := by
    intro x hx
    have := wt_chars wt x hx
    simp [nameChar, slugChar, this.1, this.2]
  have hslug : ∀ x ∈ titleSlug title, nameChar x = true := by
    intro x hx
    simp [nameChar, titleSlug_chars title x hx]
  cases num with
  | none =>
    unfold generateBranchName at hc
    simp only [List.mem_append, List.mem_singleton, List.not_mem_nil, or_false] at hc
    rcases hc with (h1 | h2) | h4
    · exact hwt c h1
    · rw [h2]; decide
    · exact hslug c h4
  | some k =>
    unfold generateBranchName at hc
    simp only [List.mem_append, List.mem_singleton] at hc
    rcases hc with ((h1 | h2) | (h3 | h5) | h6) | h4
    · exact hwt c h1
    · rw [h2]; decide
    · have : ∀ x ∈ "issue-".data, nameChar x = true := by decide
      exact this c h3
    · have := natToStrAux_digits _ _ c h5
      simp [nameChar, slugChar, this.1, this.2]
    · rw [h6]; decide
    · exact hslug c h4

theorem nameChar_toNat (c : Char) (h : nameChar c = true) :
    (97 ≤ c.toNat ∧ c.toNat ≤ 122) ∨ (48 ≤ c.toNat ∧ c.toNat ≤ 57) ∨
      c.toNat = 45 ∨ c.toNat = 47 := by
  unfold nameChar slugChar at h
  simp only [Bool.or_eq_true, Bool.and_eq_true, decide_eq_true_eq] at h
  rcases h with ((⟨h1, h2⟩ | ⟨h1, h2⟩) | h3) | h4
  · exact Or.inl ⟨h1, h2⟩
  · exact Or.inr (Or.inl ⟨h1, h2⟩)
  · exact Or.inr (Or.inr (Or.inl (by rw [h3]; decide)))
  · exact Or.inr (Or.inr (Or.inr (by rw [h4]; decide)))

theorem nameChar_not_space (c : Char) (h : nameChar c = true) :
    Js.isJsSpace c = false := by
  have hn := nameChar_toNat c h
  have e1 : c ≠ ' ' := by intro h2; rw [h2] at hn; exact absurd hn (by decide)
  have e2 : c ≠ '\t' := by intro h2; rw [h2] at hn; exact absurd hn (by decide)
  have e3 : c ≠ '\n' := by intro h2; rw [h2] at hn; exact absurd hn (by decide)
  have e4 : c ≠ '\r' := by intro h2; rw [h2] at hn; exact absurd hn (by decide)
  have n1 : ¬(c.toNat = 0x0b) := by omega
  have n2 : ¬(c.toNat = 0x0c) := by omega
  have n3 : ¬(c.toNat = 0xa0) := by omega
  have n4 : ¬(c.toNat = 0x1680) := by omega
  have n5 : ¬(c.toNat = 0x2028) := by omega
  have n6 : ¬(c.toNat = 0x2029) := by omega
  have n7 : ¬(c.toNat = 0x202f) := by omega
  have n8 : ¬(c.toNat = 0x205f) := by omega
  have n9 : ¬(c.toNat = 0x3000) := by omega
  have n10 : ¬(c.toNat = 0xfeff) := by omega
  have nr : ¬(0x2000 ≤ c.toNat) := by omega
  unfold Js.isJsSpace
  simp [e1, e2, e3, e4, n1, n2, n3, n4, n5, n6, n7, n8, n9, n10, nr]

theorem nameChar_ne_dot (c : Char) (h : nameChar c = true) : c ≠ '.' := by
  intro h2
  subst h2
  exact absurd (nameChar_toNat _ h) (by decide)

theorem nameChar_not_special (c : Char) (h : nameChar c = true) :
    Validation.branchSpecials.contains c = false := by
  have hn := nameChar_toNat c h
  by_contra hcon
  rw [Bool.not_eq_false] at hcon
  have hm : c ∈ Validation.branchSpecials := by simpa using hcon
  fin_cases hm <;> exact absurd hn (by decide)

theorem slugChar_toNat (c : Char) (h : slugChar c = true) :
    (97 ≤ c.toNat ∧ c.toNat ≤ 122) ∨ (48 ≤ c.toNat ∧ c.toNat ≤ 57) ∨
      c.toNat = 45 :=
  by
  unfold slugChar at h
  simp only [Bool.or_eq_true, Bool.and_eq_true, decide_eq_true_eq] at h
  rcases h with (⟨h1, h2⟩ | ⟨h1, h2⟩) | h3
  · exact Or.inl ⟨h1, h2⟩
  · exact Or.inr (Or.inl ⟨h1, h2⟩)
  · exact Or.inr (Or.inr (by rw [h3]; decide))

theorem slugChar_ne_slash (c : Char) (h : slugChar c = true) : c ≠ '/' := by
  intro h2
  subst h2
  exact absurd (slugChar_toNat _ h) (by decide)

theorem slugChar_ne_dot (c : Char) (h : slugChar c = true) : c ≠ '.' := by
  intro h2
  subst h2
  exact absurd (slugChar_toNat _ h) (by decide)

theorem containsSub_head_mem :
    ∀ (l p : List Char) (c : Char), Js.containsSub l (c :: p) = true → c ∈ l := by
  intro l
  induction l with
  | nil => intro p c h; simp [Js.containsSub] at h
  | cons a rest ih =>
    intro p c h
    unfold Js.containsSub at h
    simp only [Bool.or_eq_true] at h
    rcases h with h | h
    · unfold List.isPrefixOf at h
      simp only [Bool.and_eq_true, beq_iff_eq] at h
      rw [h.1]
      exact List.mem_cons_self a rest
    · exact List.mem_cons_of_mem a (ih p c h)

theorem containsSub_double_count :
    ∀ (l : List Char) (c : Char), Js.containsSub l [c, c] = true →
      2 ≤ l.count c := by
  intro l
  induction l with
  | nil => intro c h; simp [Js.containsSub] at h
  | cons a rest ih =>
    intro c h
    unfold Js.containsSub at h
    simp only [Bool.or_eq_true] at h
    rcases h with h | h
    · unfold List.isPrefixOf at h
      simp only [Bool.and_eq_true, beq_iff_eq] at h
      obtain ⟨hca, hrest⟩ := h
      subst hca
      have hmem : c ∈ rest := by
        cases rest with
        | nil => simp [List.isPrefixOf] at hrest
        | cons b rest2 =>
          unfold List.isPrefixOf at hrest
          simp only [Bool.and_eq_true, beq_iff_eq] at hrest
          rw [hrest.1]
          exact List.mem_cons_self b rest2
      have h1 : 1 ≤ rest.count c := List.count_pos_iff.mpr hmem
      rw [List.count_cons]
      simp only [beq_self_eq_true, if_true]
      omega
    · have := ih c h
      rw [List.count_cons]
      omega

theorem dropWhile_eq_self_of_none (p : Char → Bool) (l : List Char)
    (h : ∀ c ∈ l, p c = false) : l.dropWhile p = l := by
  cases l with
  | nil => rfl
  | cons a rest =>
    rw [List.dropWhile_cons_of_neg (by simp [h a (List.mem_cons_self a rest)])]

theorem jsTrim_eq_self (l : List Char) (h : ∀ c ∈ l, Js.isJsSpace c = false) :
    Js.jsTrim l = l := by
  unfold Js.jsTrim
  rw [dropWhile_eq_self_of_none _ _ h]
  rw [dropWhile_eq_self_of_none _ _ (fun c hc => h c (List.mem_reverse.mp hc))]
  exact List.reverse_reverse l

theorem nameChar_not_mem_special (c : Char) (h : nameChar c = true) :
    c ∉ Validation.branchSpecials := by
  intro hm
  have h2 := nameChar_not_special c h
  rw [List.contains_eq_any_beq] at h2
  have h3 := List.any_eq_false.mp h2 c hm
  simp at h3

theorem validateName_accepts_general (A M S : List Char)
    (hAchars : ∀ c ∈ A, 'a' ≤ c ∧ c ≤ 'z') (hAne : A ≠ [])
    (hM : ∀ c ∈ M, slugChar c = true)
    (hS : ∀ c ∈ S, slugChar c = true) (hSne : S ≠ [])
    (hSlast : S.getLast? ≠ some '-')
    (hlen : (((A ++ ['/']) ++ M) ++ S).length ≤ 100) :
    (Validation.validateBranchName (((A ++ ['/']) ++ M) ++ S)).valid = true := by
  set name := ((A ++ ['/']) ++ M) ++ S with hname
  have hchars : ∀ c ∈ name, nameChar c = true := by
    intro c hc
    simp only [hname, List.mem_append, List.mem_singleton] at hc
    rcases hc with ((h1 | h2) | h3) | h4
    · have := hAchars c h1
      simp [nameChar, slugChar, this.1, this.2]
    · rw [h2]; decide
    · simp [nameChar, hM c h3]
    · simp [nameChar, hS c h4]
  have hhead : name.head? = A.head? := by
    rw [hname, List.append_assoc, List.append_assoc]
    exact List.head?_append_of_ne_nil _ hAne
  obtain ⟨h0, hA0⟩ : ∃ h0, A.head? = some h0 := by
    cases A with
    | nil => exact absurd rfl hAne
    | cons a as => exact ⟨a, rfl⟩
  have hh0 : 'a' ≤ h0 ∧ h0 ≤ 'z' := by
    cases A with
    | nil => exact absurd rfl hAne
    | cons a as =>
      have ha : a = h0 := by
        have : (a :: as).head? = some h0 := hA0
        injection this
      exact ha ▸ hAchars a (List.mem_cons_self a as)
  have hne : name ≠ [] := by
    intro h0eq
    rw [h0eq] at hhead
    rw [hA0] at hhead
    exact absurd hhead (by simp)
  have hlast : name.getLast? = S.getLast? := by
    rw [hname]
    exact List.getLast?_append_of_ne_nil _ hSne
  obtain ⟨s0, hS0⟩ : ∃ s0, S.getLast? = some s0 := by
    cases hq : S.getLast? with
    | none => exact absurd (List.getLast?_eq_none_iff.mp hq) hSne
    | some s => exact ⟨s, rfl⟩
  have hs0chars : slugChar s0 = true := hS s0 (List.mem_of_mem_getLast? hS0)
  have hnospace : ∀ c ∈ name, Js.isJsSpace c = false :=
    fun c hc => nameChar_not_space c (hchars c hc)
  have htrim : Js.jsTrim name = name := jsTrim_eq_self name hnospace
  have p1 : name.any Js.isJsSpace = false := by
    simp only [List.any_eq_false]
    intro x hx
    simp [hnospace x hx]
  have p2 : Js.containsSub name ['.', '.'] = false := by
    by_contra hcon
    rw [Bool.not_eq_false] at hcon
    have hmm := containsSub_head_mem name ['.'] '.' hcon
    exact nameChar_ne_dot '.' (hchars '.' hmm) rfl
  have p3 : name.any (fun c => Validation.branchSpecials.contains c) = false := by
    rw [List.any_eq_false]
    intro x hx
    rw [nameChar_not_special x (hchars x hx)]
    exact Bool.false_ne_true
  have p4 : ¬(name.head? = some '-') := by
    rw [hhead, hA0]
    intro hq
    injection hq with hq2
    rw [hq2] at hh0
    exact absurd hh0 (by decide)
  have p5 : ¬(name.head? = some '.') := by
    rw [hhead, hA0]
    intro hq
    injection hq with hq2
    rw [hq2] at hh0
    exact absurd hh0 (by decide)
  have p6 : ¬(name.head? = some '/') := by
    rw [hhead, hA0]
    intro hq
    injection hq with hq2
    rw [hq2] at hh0
    exact absurd hh0 (by decide)
  have p7 : ¬(name.getLast? = some '-') := by
    rw [hlast]
    exact hSlast
  have p8 : ¬(name.getLast? = some '.') := by
    rw [hlast, hS0]
    intro hq
    injection hq with hq2
    rw [hq2] at hs0chars
    exact absurd hs0chars (by decide)
  have p9 : ¬(name.getLast? = some '/') := by
    rw [hlast, hS0]
    intro hq
    injection hq with hq2
    rw [hq2] at hs0chars
    exact absurd hs0chars (by decide)
  have p10 : ¬(name.map Char.toUpper = "HEAD".data) := by
    intro hq
    have hsl : '/' ∈ name := by
      rw [hname]
      simp
    have hins : Char.toUpper '/' ∈ name.map Char.toUpper :=
      List.mem_map_of_mem _ hsl
    rw [hq] at hins
    exact absurd hins (by decide)
  have p11 : Js.containsSub name ['/', '/'] = false := by
    by_contra hcon
    rw [Bool.not_eq_false] at hcon
    have h2 := containsSub_double_count name '/' hcon
    have hcA : A.count '/' = 0 := by
      rw [List.count_eq_zero]
      intro hm
      exact absurd (hAchars '/' hm) (by decide)
    have hcM : M.count '/' = 0 := by
      rw [List.count_eq_zero]
      intro hm
      exact slugChar_ne_slash '/' (hM '/' hm) rfl
    have hcS : S.count '/' = 0 := by
      rw [List.count_eq_zero]
      intro hm
      exact slugChar_ne_slash '/' (hS '/' hm) rfl
    have hone : name.count '/' = 1 := by
      rw [hname]
      simp [List.count_append, hcA, hcM, hcS]
    omega
  have hempty : name.isEmpty = false := by
    cases hnm : name with
    | nil => exact absurd hnm hne
    | cons _ _ => rfl
  have hlen0 : ¬(name.length = 0) := fun hq => hne (List.length_eq_zero.mp hq)
  have hpat : Validation.hasInvalidPattern name = false := by
    unfold Validation.hasInvalidPattern
    simp [p1, p2, p3, p4, p5, p6, p7, p8, p9, p10, p11]
    intro x hx
    exact nameChar_not_mem_special x (hchars x hx)
  unfold Validation.validateBranchName
  rw [if_neg (by simp [hempty])]
  simp only [htrim]
  rw [if_neg hlen0, if_neg (by omega), if_neg (by simp [hpat])]

theorem issuePart_chars (n : Nat) :
    ∀ c ∈ "issue-".data ++ Js.natToStr n ++ ['-'], slugChar c = true := by
  intro c hc
  simp only [List.mem_append, List.mem_singleton] at hc
  rcases hc with (h1 | h2) | h3
  · fin_cases h1 <;> decide
  · unfold Js.natToStr at h2
    have hd := natToStrAux_digits _ _ c h2
    simp [slugChar, hd.1, hd.2]
  · rw [h3]; decide

theorem validateBranchName_accepts (wt : WorkType) (info : IssueInfo)
    (hs : titleSlug info.title ≠ [])
    (he : (titleSlug info.title).getLast? ≠ some '-')
    (hlen : (generateBranchName wt info).length ≤ 100) :
    (Validation.validateBranchName (generateBranchName wt info)).valid = true := by
  obtain ⟨num, title⟩ := info
  cases num with
  | none =>
      have hshape : generateBranchName wt ⟨none, title⟩ =
          (((WorkType.str wt).data ++ ['/']) ++ []) ++ titleSlug title := rfl
      rw [hshape] at hlen ⊢
      exact validateName_accepts_general _ _ _ (wt_chars wt)
        (by cases wt <;> decide)
        (fun c hc => absurd hc (List.not_mem_nil c))
        (titleSlug_chars title) hs he hlen
  | some n =>
      have hshape : generateBranchName wt ⟨some n, title⟩ =
          (((WorkType.str wt).data ++ ['/']) ++
            ("issue-".data ++ Js.natToStr n ++ ['-'])) ++ titleSlug title := rfl
      rw [hshape] at hlen ⊢
      exact validateName_accepts_general _ _ _ (wt_chars wt)
        (by cases wt <;> decide) (issuePart_chars n)
        (titleSlug_chars title) hs he hlen

/-- C5 counterexample: on the spec's own §8 test vector
(work_type=feature, issue=123, title="ユーザープロファイル機能") the slug is
empty — every character of the Japanese title is removed by the
`[^a-z0-9\s-]` filter — so the generated name is `feature/issue-123-`,
which ends in a dash and is REJECTED by `validateBranchName` (`-$`
pattern). The claim that every generated name passes the validator is
false. -/
theorem branchDerivation_counterexample :
    generateBranchName WorkType.feature
        { number := some 123, title := "ユーザープロファイル機能" } =
      "feature/issue-123-".data ∧
    (Validation.validateBranchName (generateBranchName WorkType.feature
        { number := some 123, title := "ユーザープロファイル機能" })).valid = false := by
  constructor
  · decide
  · decide

/-- C5 (amended): the derived branch name equals
`<work_type>/<issue_part><slug>` where the issue part is `issue-<N>-`
exactly when an issue number is present (else empty), the slug contains
only lower-case alphanumerics and dashes and is at most 30 characters;
and the full name is accepted by `validateBranchName` PROVIDED the slug
is nonempty, the slug does not end in a dash, and the full name is at
most 100 characters — conditions the generator does not enforce (e.g.
an all-Japanese title yields an empty slug and a trailing dash, and the
name is rejected). -/
theorem branchDerivation_amended (wt : WorkType) (info : IssueInfo)
    (hs : titleSlug info.title ≠ [])
    (he : (titleSlug info.title).getLast? ≠ some '-')
    (hlen : (generateBranchName wt info).length ≤ 100) :
    generateBranchName wt info =
      (WorkType.str wt).data ++ ['/'] ++
        (match info.number with
         | some n => "issue-".data ++ Js.natToStr n ++ ['-']
         | none => []) ++ titleSlug info.title ∧
    (∀ c ∈ titleSlug info.title, slugChar c = true) ∧
    (titleSlug info.title).length ≤ 30 ∧
    (Validation.validateBranchName (generateBranchName wt info)).valid = true :=
  ⟨rfl, titleSlug_chars info.title, titleSlug_len info.title,
    validateBranchName_accepts wt info hs he hlen⟩

/-- Closed witness for `branchDerivation_amended`: work_type=feature,
issue=123, title="Add User Login" gives `feature/issue-123-add-user-login`,
which the validator accepts. -/
theorem branchDerivation_amended_witness :
    generateBranchName WorkType.feature
        { number := some 123, title := "Add User Login" } =
      (WorkType.str WorkType.feature).data ++ ['/'] ++
        (match ({ number := some 123, title := "Add User Login" } :
            IssueInfo).number with
         | some n => "issue-".data ++ Js.natToStr n ++ ['-']
         | none => []) ++
        titleSlug ({ number := some 123, title := "Add User Login" } :
          IssueInfo).title ∧
    (∀ c ∈ titleSlug ({ number := some 123, title := "Add User Login" } :
        IssueInfo).title, slugChar c = true) ∧
    (titleSlug ({ number := some 123, title := "Add User Login" } :
        IssueInfo).title).length ≤ 30 ∧
    (Validation.validateBranchName (generateBranchName WorkType.feature
        { number := some 123, title := "Add User Login" })).valid = true :=
  branchDerivation_amended WorkType.feature
    { number := some 123, title := "Add User Login" }
    (by decide) (by decide) (by decide)

end BranchPlan
